import Mathlib

/-!
Verification of the coordination core of the Keithley 2450 I-V sweep GUI
(files 2450_gui_iv_multiple.py and 2450_receive_and_iv_multiple.py).

Machine floats are embedded as exact rationals: every arithmetic expression of
the source is translated literally over ℚ, so each Lean definition mirrors the
corresponding Python function line by line.  Python float literals such as
0.02, 1e-6, 1e-9, 1e-12 become the rationals 2/100, 1/10^6, 1/10^9, 1/10^12.
-/

namespace Sweep

/-- Embedding of Python math.isclose a b rel_tol abs_tol, which holds when
abs (a - b) is at most max (rel_tol * max (abs a) (abs b)) abs_tol.  The
default rel_tol used throughout the source is 1e-9. -/
def iscloseQ (a b rel_tol abs_tol : ℚ) : Bool :=
  decide (|a - b| ≤ max (rel_tol * max |a| |b|) abs_tol)

/-! ## VoltageReconciler: _match_voltage_sequence

Source: 2450_gui_iv_multiple.py, lines 546-570. -/

/-- Embedding of the per-index scan of _match_voltage_sequence.  The Python
loop walks idx over range(length) keeping stuck_index; the only use of
stuck_index is whether it is None, so it is carried as a Bool.  Pairing the
two lists by simultaneous recursion visits exactly the first
min length length indices, matching range(min(len(expected), len(actual))). -/
def matchScan (tol : ℚ) : List ℚ → List ℚ → Bool → List ℚ
  | e :: es, a :: as_, stuck =>
    let stuck2 := stuck || decide (tol < |e - a|)
    (if stuck2 then e else a) :: matchScan tol es as_ stuck2
  | _, _, _ => []

/-- Embedding of the step_candidates list comprehension: absolute differences
of consecutive expected values over range(length - 1), excluding pairs that
math.isclose (rel_tol 1e-9, abs_tol 1e-12) deems equal. -/
def step_candidates (expected : List ℚ) (length : ℕ) : List ℚ :=
  ((expected.zip expected.tail).take (length - 1)).filterMap
    (fun p => if iscloseQ p.2 p.1 (1/10^9) (1/10^12) then none else some |p.2 - p.1|)

/-- Embedding of base_step = min(step_candidates) if step_candidates else 0.0. -/
def base_step (expected : List ℚ) (length : ℕ) : ℚ :=
  match step_candidates expected length with
  | [] => 0
  | c :: cs => cs.foldl min c

/-- The tolerance computed inside _match_voltage_sequence:
max(base_step * 0.02, 1e-6). -/
def toleranceOf (expected actual : List ℚ) : ℚ :=
  max (base_step expected (min expected.length actual.length) * (2/100)) (1/10^6)

/-- Embedding of _match_voltage_sequence (2450_gui_iv_multiple.py:546-570).
Returns actual unchanged when either list is empty; otherwise scans the first
min-length prefix with the sticky rule and passes the tail of actual through. -/
def match_voltage_sequence (expected actual : List ℚ) : List ℚ :=
  if expected.isEmpty ∨ actual.isEmpty then actual
  else
    matchScan (toleranceOf expected actual) expected actual false ++
      actual.drop (min expected.length actual.length)

/-! Specification-side description of the reconciliation (from the claim
wording): the first index k below length at which the deviation exceeds the
tolerance, and the output it dictates. -/

/-- First index k (below the zipped length) with tol < abs (expected k - actual k);
none when every index within the common prefix satisfies the tolerance. -/
def firstDeviation (tol : ℚ) : List ℚ → List ℚ → Option ℕ
  | e :: es, a :: as_ =>
    if tol < |e - a| then some 0 else (firstDeviation tol es as_).map (· + 1)
  | _, _ => none

/-- The output described by the claim: measured before k, commanded from k to
length, measured passthrough beyond length; measured unchanged when no
deviation index exists. -/
def reconcileSpec (expected actual : List ℚ) (tol : ℚ) : List ℚ :=
  let len := min expected.length actual.length
  match firstDeviation tol expected actual with
  | none => actual
  | some k => actual.take k ++ (expected.take len).drop k ++ actual.drop len

/-- The tolerance as the claim words it: baseStep is the minimum non-zero
absolute difference between all consecutive commanded levels. -/
def claimBaseStep (expected : List ℚ) : ℚ :=
  match (expected.zip expected.tail).filterMap
      (fun p => if p.2 - p.1 = 0 then none else some |p.2 - p.1|) with
  | [] => 0
  | c :: cs => cs.foldl min c

/-- Tolerance per the claim wording: max(claimBaseStep * 0.02, 1e-6). -/
def claimTolerance (expected : List ℚ) : ℚ :=
  max (claimBaseStep expected * (2/100)) (1/10^6)

/-! ## SegmentPlanner: _build_segments and generate_segment_levels

Source: 2450_gui_iv_multiple.py, lines 488-544. -/

/-- One planned segment: the tuple (start, stop, seg_step) appended by
append_segment. -/
structure Segment where
  startLevel : ℚ
  stopLevel : ℚ
  stepSigned : ℚ
deriving DecidableEq

/-- The loop epsilon of _build_segments: step_mag * 1e-9 + 1e-12. -/
def epsilonOf (step_v : ℚ) : ℚ := |step_v| * (1/10^9) + 1/10^12

/-- The next candidate level computed by one iteration of the
generate_segment_levels while-loop: current + seg_step, clamped to stop when
it overshoots past stop + epsilon (direction = 1, meaning seg_step > 0) or
past stop - epsilon (direction = -1, meaning seg_step <= 0). -/
def nextLevel (stop seg_step epsilon current : ℚ) : ℚ :=
  if 0 < seg_step ∧ stop + epsilon < current + seg_step then stop
  else if seg_step ≤ 0 ∧ current + seg_step < stop - epsilon then stop
  else current + seg_step

/-- Embedding of the while-loop of generate_segment_levels as a fuel-indexed
structural recursion; each fuel step is one loop iteration.  The loop breaks
(returning the levels appended so far) when the next level is isclose to the
current one, and appends the next level, additionally breaking, when it is
isclose to stop.  generate_segment_levels always supplies enough fuel for the
loop to exit through one of those break conditions: the lemmas below derive
every exit from a break, never from the fuel hitting zero. -/
def genLoopF (stop seg_step epsilon : ℚ) : ℕ → ℚ → List ℚ
  | 0, _ => []
  | fuel + 1, current =>
    if iscloseQ (nextLevel stop seg_step epsilon current) current (1/10^9) epsilon then []
    else if iscloseQ (nextLevel stop seg_step epsilon current) stop (1/10^9) epsilon then
      [nextLevel stop seg_step epsilon current]
    else
      nextLevel stop seg_step epsilon current ::
        genLoopF stop seg_step epsilon fuel (nextLevel stop seg_step epsilon current)

/-- Fuel budget for one ladder: the loop advances by seg_step toward stop on
every iteration that recurses, so the recursion depth is bounded by
ceil ((stop - start) / seg_step); two units of slack cover the clamped final
iteration. -/
def fuelFor (start stop seg_step : ℚ) : ℕ :=
  (⌈(stop - start) / seg_step⌉).toNat + 2

/-- Embedding of generate_segment_levels: levels starts as [start]; an early
return fires when seg_step is isclose to 0 with absolute tolerance epsilon;
otherwise the while-loop extends the list. -/
def generate_segment_levels (start stop seg_step epsilon : ℚ) : List ℚ :=
  start ::
    (if iscloseQ seg_step 0 (1/10^9) epsilon then []
     else genLoopF stop seg_step epsilon (fuelFor start stop seg_step) start)

/-- Embedding of the append_segment closure of _build_segments: skip the
segment when start and stop are isclose with absolute tolerance epsilon;
otherwise the signed step is +step_mag when stop >= start and -step_mag
otherwise, and both the segment list and the level path are extended. -/
def appendSegment (step_mag epsilon : ℚ) (acc : List Segment × List ℚ)
    (start stop : ℚ) : List Segment × List ℚ :=
  if iscloseQ start stop (1/10^9) epsilon then acc
  else
    (acc.1 ++ [⟨start, stop, if start ≤ stop then step_mag else -step_mag⟩],
      acc.2 ++ generate_segment_levels start stop
        (if start ≤ stop then step_mag else -step_mag) epsilon)

/-- Embedding of _build_segments (2450_gui_iv_multiple.py:488-544).  The
ValueError raised on a zero step magnitude (math.isclose with abs_tol 1e-15)
is modelled as Except.error.  Otherwise the planner emits 0 -> positiveTarget
-> 0 when positiveTarget > epsilon, then 0 -> negativeTarget -> 0 when
negativeTarget < -epsilon, falling back to a single direct start -> stop
segment when no segment was produced, and finally replaces an empty path
with [0]. -/
def build_segments (start_v stop_v step_v : ℚ) :
    Except String (List Segment × List ℚ) :=
  if iscloseQ |step_v| 0 (1/10^9) (1/10^15) then
    Except.error "Step voltage must not be zero."
  else
    let step_mag := |step_v|
    let epsilon := epsilonOf step_v
    let positive_target := max (max start_v stop_v) 0
    let negative_target := min (min start_v stop_v) 0
    let acc1 :=
      if epsilon < positive_target then
        appendSegment step_mag epsilon
          (appendSegment step_mag epsilon ([], []) 0 positive_target)
          positive_target 0
      else ([], [])
    let acc2 :=
      if negative_target < -epsilon then
        appendSegment step_mag epsilon
          (appendSegment step_mag epsilon acc1 0 negative_target)
          negative_target 0
      else acc1
    let acc3 :=
      if acc2.1.isEmpty then
        ([⟨start_v, stop_v, step_v⟩],
          generate_segment_levels start_v stop_v step_v epsilon)
      else acc2
    Except.ok (acc3.1, if acc3.2.isEmpty then [0] else acc3.2)

/-- One event seen by the drain loop _read_until_marker
(2450_gui_iv_multiple.py:444-464) on a single iteration: either inst.read()
returns a (stripped) line, or it raises pyvisa.VisaIOError; isTimeout
records whether the error was the VI_ERROR_TMO timeout case, which the
except clause does not inspect. -/
inductive ReadEvent where
  | line (s : String)
  | visaError (isTimeout : Bool)
deriving DecidableEq

/-- Result of the drain loop: ok = marker line seen, returning the data
lines accumulated so far; cancelled = RuntimeError from the
stop_event.is_set() check; readFailed = RuntimeError re-raised from
pyvisa.VisaIOError (whether or not it was a timeout); starved = the
supplied event trace ran out, which stands for the while-True loop still
running and only occurs for traces that are too short. -/
inductive DrainResult where
  | ok (lines : List String)
  | cancelled
  | readFailed (isTimeout : Bool)
  | starved
deriving DecidableEq

/-- Embedding of _read_until_marker's loop.  Each iteration first checks
stop_event.is_set() (the Bool of the pair) and raises "Sweep cancelled."
when set; then the read happens (the ReadEvent): any VisaIOError is
re-raised as RuntimeError, aborting.  A line equal to marker ends the loop;
an empty line is skipped; any other line invokes the callback cb inside
try/except Exception: pass - both outcomes continue identically - and is
appended to the accumulated lines after the callback call. -/
def read_until_marker (marker : String) (cb : String → Except String Unit) :
    List String → List (Bool × ReadEvent) → DrainResult
  | _, [] => DrainResult.starved
  | lines, (stopSet, ev) :: rest =>
    if stopSet then DrainResult.cancelled
    else
      match ev with
      | ReadEvent.visaError t => DrainResult.readFailed t
      | ReadEvent.line s =>
        if s = marker then DrainResult.ok lines
        else if s = "" then read_until_marker marker cb lines rest
        else
          match cb s with
          | Except.ok _ => read_until_marker marker cb (lines ++ [s]) rest
          | Except.error _ => read_until_marker marker cb (lines ++ [s]) rest

/-- The externally visible operations performed by
ReceiveAndIVApp._handle_trigger (2450_receive_and_iv_multiple.py:213-236),
in program order. -/
inductive TriggerOp where
  | showInfoAlreadyRunning
  | showWarningDisconnected
  | focusIVTab
  | attachSharedInstrument
  | setLock (locked : Bool)
  | startSweep
  | releaseSharedInstrument
deriving DecidableEq

/-- Embedding of _handle_trigger as the ordered list of operations it
performs, given whether an I-V sweep is already running, whether the
trigger GUI's instrument is connected, and whether start_sweep leaves a
sweep running (the is_sweep_running() re-check after the call). -/
def handle_trigger_ops (sweepRunning instConnected startLeavesRunning : Bool) :
    List TriggerOp :=
  if sweepRunning then [TriggerOp.showInfoAlreadyRunning]
  else if !instConnected then [TriggerOp.showWarningDisconnected]
  else
    [TriggerOp.focusIVTab, TriggerOp.attachSharedInstrument,
      TriggerOp.setLock true, TriggerOp.startSweep] ++
      (if startLeavesRunning then []
       else [TriggerOp.releaseSharedInstrument, TriggerOp.setLock false])

/-- Ownership-relevant state during the trigger handoff: whether the
listener has been told it is locked (TriggerReceiveGUI.set_instrument_lock,
which makes it reject listener-initiated operations) and whether the shared
handle has been reassigned to the sweep component
(IntegratedIVSweepApp.attach_shared_instrument sets self.inst /
release_shared_instrument clears it). -/
structure HandoffState where
  listenerLocked : Bool
  sweepOwnsHandle : Bool
deriving DecidableEq

def applyTriggerOp (s : HandoffState) : TriggerOp → HandoffState
  | TriggerOp.attachSharedInstrument => { s with sweepOwnsHandle := true }
  | TriggerOp.releaseSharedInstrument => { s with sweepOwnsHandle := false }
  | TriggerOp.setLock b => { s with listenerLocked := b }
  | _ => s

/-- The handoff states traversed while _handle_trigger runs, starting from
the idle state (listener unlocked, handle not attached to the sweep). -/
def handoffStates (sweepRunning instConnected startLeavesRunning : Bool) :
    List HandoffState :=
  List.scanl applyTriggerOp ⟨false, false⟩
    (handle_trigger_ops sweepRunning instConnected startLeavesRunning)

/-- Outcome of one issued segment in _sweep_worker: the segment's channel
interaction either succeeds or raises (a VisaIOError wrapped in
RuntimeError, or RuntimeError "Sweep cancelled." when stop_event is
observed mid-segment). -/
inductive SegOutcome where
  | ok
  | fail (msg : String)
deriving DecidableEq

/-- Embedding of the segment-issuing loops of _sweep_worker
(2450_gui_iv_multiple.py:289-392): segments are issued in order (runs
outer, segments inner, flattened to consecutive indices starting at k);
the first exception leaves the try block, so no later segment of any run
is issued.  Returns the indices actually issued and the error, if any. -/
def workerExec (outcomes : ℕ → SegOutcome) : ℕ → ℕ → List ℕ × Option String
  | _, 0 => ([], none)
  | k, n + 1 =>
    match outcomes k with
    | SegOutcome.fail msg => ([k], some msg)
    | SegOutcome.ok =>
      let r := workerExec outcomes (k + 1) n
      (k :: r.1, r.2)

/-- GUI-side state touched by the failure handler _on_sweep_failed
(2450_gui_iv_multiple.py:686-693), together with the trace of commands
written to the instrument channel (self.inst.write). -/
structure AppState where
  runResults : List (List ℚ)
  currentData : List ℚ
  correctedVoltages : List ℚ
  outputLines : List String
  channelWrites : List String
deriving DecidableEq

/-- Embedding of _on_sweep_failed: it clears run_results, current_data,
corrected_voltages and output_lines (the messagebox, log and button
updates are GUI-only) and writes nothing to the channel. -/
def on_sweep_failed (s : AppState) : AppState :=
  { s with
    runResults := []
    currentData := []
    correctedVoltages := []
    outputLines := [] }

/-- The "Instrument Busy" dialog text of TriggerReceiveGUI._guard_if_locked
for a given action name. -/
def busyMsg (action : String) : String :=
  "Instrument Busy: Cannot " ++ action ++ " while an I-V sweep is running."

/-- Listener-side state for TriggerReceiveGUI: the _instrument_locked flag,
the info dialogs shown so far, and the operations actually performed on
the VISA session by the superclass methods. -/
structure ListenerState where
  locked : Bool
  infoDialogs : List String
  sessionOps : List String
deriving DecidableEq

/-- Embedding of TriggerReceiveGUI._guard_if_locked: when locked, shows
the "Instrument Busy" dialog and reports False; otherwise reports True
with no state change. -/
def guard_if_locked (s : ListenerState) (action : String) :
    Bool × ListenerState :=
  if s.locked then
    (false, { s with infoDialogs := s.infoDialogs ++ [busyMsg action] })
  else (true, s)

/-- Common shape of the guarded overrides start_wait, setup_trigger and
disconnect in TriggerReceiveGUI: return early when the guard fails,
otherwise run the superclass operation (abstracted as superOp, which may
touch the session). -/
def guardedOp (action : String) (superOp : ListenerState → ListenerState)
    (s : ListenerState) : ListenerState :=
  let g := guard_if_locked s action
  if g.1 then superOp g.2 else g.2

def start_wait (superOp : ListenerState → ListenerState)
    (s : ListenerState) : ListenerState :=
  guardedOp "start a new wait" superOp s

def setup_trigger (superOp : ListenerState → ListenerState)
    (s : ListenerState) : ListenerState :=
  guardedOp "configure the trigger" superOp s

def disconnect (superOp : ListenerState → ListenerState)
    (s : ListenerState) : ListenerState :=
  guardedOp "disconnect" superOp s

/-- Embedding of the validation in _collect_parameters
(2450_gui_iv_multiple.py:260-287) on already-parsed numeric inputs (the
float(...) parsing of the entry strings is outside the model;
total_runs_int is the integral value of the Total runs field, none when
the field is missing or not an integer).  The step_v == 0.0 check raises
ValueError first, before the remaining fields are processed. -/
def collect_parameters (start_v stop_v step_v ilimit nplc settle : ℚ)
    (total_runs_int : Option ℤ) :
    Except String (ℚ × ℚ × ℚ × ℚ × ℚ × ℚ × ℤ) :=
  if step_v = 0 then Except.error "Step voltage must not be zero."
  else
    match total_runs_int with
    | none => Except.error "Total runs must be an integer."
    | some n =>
      if n < 1 then Except.error "Total runs must be at least 1."
      else Except.ok (start_v, stop_v, step_v, |ilimit|, max nplc (1/1000),
        max settle 0, n)

/-- Observable outcome of start_sweep (2450_gui_iv_multiple.py:231-259) up
to the point where the worker thread is (or is not) spawned: the error
dialog shown, whether the thread was spawned, and the commands written to
the channel before the spawn (start_sweep performs no channel I/O
itself). -/
structure StartOutcome where
  errorDialog : Option String
  workerSpawned : Bool
  channelWrites : List String
deriving DecidableEq

/-- Embedding of start_sweep's synchronous prefix: reject when no
instrument is connected, then validate parameters (a ValueError becomes an
error dialog and no thread is spawned), otherwise spawn the worker. -/
def start_sweep_model (connected : Bool)
    (start_v stop_v step_v ilimit nplc settle : ℚ)
    (total_runs_int : Option ℤ) : StartOutcome :=
  if !connected then ⟨some "Connect to the instrument first.", false, []⟩
  else
    match collect_parameters start_v stop_v step_v ilimit nplc settle
        total_runs_int with
    | Except.error msg => ⟨some msg, false, []⟩
    | Except.ok _ => ⟨none, true, []⟩

/-- Addressed heap modelling Python object identity for the run-entry
dicts: numeric-list cells (actual_voltages, currents, corrected_voltages)
and string-list cells (printed_lines) live at natural-number addresses;
fresh is the next unused address. -/
structure Heap where
  numCells : ℕ → List ℚ
  strCells : ℕ → List String
  fresh : ℕ

/-- A run-entry dict as held by the worker: scalar fields by value, the
four nested lists by reference (heap addresses). -/
structure EntryRef where
  runIndex : ℕ
  actualVoltages : ℕ
  currents : ℕ
  correctedVoltages : ℕ
  printedLines : ℕ
  pointCount : ℕ
  adjusted : Bool
deriving DecidableEq

/-- copy.deepcopy of one entry dict: four fresh cells holding copies of
the nested lists' current contents, scalar fields copied by value. -/
def deepcopyEntry (h : Heap) (e : EntryRef) : Heap × EntryRef :=
  ({ numCells := fun a =>
       if a = h.fresh then h.numCells e.actualVoltages
       else if a = h.fresh + 1 then h.numCells e.currents
       else if a = h.fresh + 2 then h.numCells e.correctedVoltages
       else h.numCells a
     strCells := fun a =>
       if a = h.fresh + 3 then h.strCells e.printedLines else h.strCells a
     fresh := h.fresh + 4 },
   ⟨e.runIndex, h.fresh, h.fresh + 1, h.fresh + 2, h.fresh + 3,
     e.pointCount, e.adjusted⟩)

/-- Embedding of _snapshot_entries (2450_gui_iv_multiple.py:595-596),
i.e. copy.deepcopy of the run-entry list: deep-copy each entry in order,
threading the heap. -/
def snapshot_entries : Heap → List EntryRef → Heap × List EntryRef
  | h, [] => (h, [])
  | h, e :: es =>
    let p := deepcopyEntry h e
    let q := snapshot_entries p.1 es
    (q.1, p.2 :: q.2)

/-- The observable value of an entry: every field dereferenced through the
heap. -/
def readEntry (h : Heap) (e : EntryRef) :
    ℕ × List ℚ × List ℚ × List ℚ × List String × ℕ × Bool :=
  (e.runIndex, h.numCells e.actualVoltages, h.numCells e.currents,
    h.numCells e.correctedVoltages, h.strCells e.printedLines,
    e.pointCount, e.adjusted)

/-- A mutation the worker may perform on its live entries after
dispatching a snapshot: overwrite the contents of a numeric-list or
string-list cell. -/
inductive HeapWrite where
  | setNum (addr : ℕ) (v : List ℚ)
  | setStr (addr : ℕ) (v : List String)

def writeAddr : HeapWrite → ℕ
  | HeapWrite.setNum a _ => a
  | HeapWrite.setStr a _ => a

def applyWrite (h : Heap) : HeapWrite → Heap
  | HeapWrite.setNum a v =>
    { h with numCells := fun b => if b = a then v else h.numCells b }
  | HeapWrite.setStr a v =>
    { h with strCells := fun b => if b = a then v else h.strCells b }

def applyWrites (h : Heap) (ws : List HeapWrite) : Heap :=
  ws.foldl applyWrite h

/-- Well-formedness of a live entry: all four list addresses are
allocated (below the heap's fresh mark). -/
def entryAddrsBelow (e : EntryRef) (n : ℕ) : Prop :=
  e.actualVoltages < n ∧ e.currents < n ∧ e.correctedVoltages < n ∧
    e.printedLines < n

/-- All four list addresses of an entry are at or above n (snapshot
entries live entirely in the freshly allocated region). -/
def entryAddrsGE (e : EntryRef) (n : ℕ) : Prop :=
  n ≤ e.actualVoltages ∧ n ≤ e.currents ∧ n ≤ e.correctedVoltages ∧
    n ≤ e.printedLines

/-- A concrete one-entry heap for exercising the snapshot theorems: cell 0
holds the numeric data, cell 1 the printed lines, fresh = 2. -/
def exampleHeap : Heap :=
  ⟨fun a => if a = 0 then [5] else [],
    fun a => if a = 1 then ["p"] else [], 2⟩

/-- A concrete live entry whose numeric lists all alias cell 0 and whose
printed lines live at cell 1. -/
def exampleEntry : EntryRef := ⟨1, 0, 0, 0, 1, 1, false⟩

theorem iscloseQ_true_iff (a b r t : ℚ) :
    iscloseQ a b r t = true ↔ |a - b| ≤ max (r * max |a| |b|) t := by
  simp [iscloseQ]

theorem iscloseQ_symm (a b r t : ℚ) : iscloseQ a b r t = iscloseQ b a r t := by
  simp [iscloseQ, abs_sub_comm, max_comm |a| |b|]

theorem iscloseQ_self (a r t : ℚ) (hr : 0 ≤ r) : iscloseQ a a r t = true := by
  rw [iscloseQ_true_iff]
  have h0 : (0 : ℚ) ≤ r * max |a| |a| := mul_nonneg hr (le_max_of_le_left (abs_nonneg a))
  simpa using le_max_of_le_left h0

/-- If a value is isclose to 0 with absolute tolerance t and relative
tolerance 1e-9, its magnitude is at most t (the relative term cannot
dominate because 1e-9 < 1). -/
theorem iscloseQ_zero_abs (x t : ℚ) (ht : 0 ≤ t) (h : iscloseQ x 0 (1/10^9) t = true) :
    |x| ≤ t := by
  rw [iscloseQ_true_iff] at h
  simp only [sub_zero, abs_zero, max_eq_left (abs_nonneg x)] at h
  rcases le_max_iff.mp h with h1 | h1
  · linarith [abs_nonneg x]
  · exact h1

theorem matchScan_stuck (tol : ℚ) :
    ∀ (es as_ : List ℚ), matchScan tol es as_ true = es.take (min es.length as_.length)
  | [], _ => by cases ‹List ℚ› <;> simp [matchScan]
  | _ :: _, [] => by simp [matchScan]
  | e :: es, a :: as_ => by
    simp only [matchScan, Bool.true_or, if_pos, List.length_cons]
    rw [Nat.succ_min_succ, List.take_succ_cons, matchScan_stuck tol es as_]

theorem matchScan_eq_spec (tol : ℚ) :
    ∀ (es as_ : List ℚ),
      matchScan tol es as_ false =
        match firstDeviation tol es as_ with
        | none => as_.take (min es.length as_.length)
        | some k => as_.take k ++ (es.take (min es.length as_.length)).drop k
  | [], as_ => by cases as_ <;> simp [matchScan, firstDeviation]
  | _ :: _, [] => by simp [matchScan, firstDeviation]
  | e :: es, a :: as_ => by
    by_cases hdev : tol < |e - a|
    · have hs := matchScan_stuck tol es as_
      simp [matchScan, firstDeviation, hdev, hs, Nat.succ_min_succ]
    · have ih := matchScan_eq_spec tol es as_
      cases h : firstDeviation tol es as_ with
      | none =>
        rw [h] at ih
        simp [matchScan, firstDeviation, hdev, h, ih, Nat.succ_min_succ]
      | some k =>
        rw [h] at ih
        simp [matchScan, firstDeviation, hdev, h, ih, Nat.succ_min_succ]

/-- C1 (amended).  For every commanded sequence and measured sequence, with
length = min of the two lengths, baseStep = the minimum absolute difference
over the consecutive pairs among the first length commanded levels that are
not approximately equal (math.isclose, rel_tol 1e-9, abs_tol 1e-12), and
tolerance = max(baseStep*0.02, 1e-6): if k is the first index below length at
which the commanded/measured deviation exceeds tolerance, reconcile returns
measured before k, commanded from k up to length, and measured unchanged from
length on; with no such k the measured values pass through unchanged.  In
particular commanded [0,1,2,3,4] with measured [0,1,2,2,2] yields
[0,1,2,3,4]. -/
theorem C1_reconcile_first_deviation_sticky :
    (∀ expected actual : List ℚ,
      match_voltage_sequence expected actual =
        reconcileSpec expected actual (toleranceOf expected actual)) ∧
    match_voltage_sequence [0, 1, 2, 3, 4] [0, 1, 2, 2, 2] = [0, 1, 2, 3, 4] := by
  refine ⟨fun expected actual => ?_,
    by norm_num [match_voltage_sequence, matchScan, toleranceOf, base_step,
      step_candidates, iscloseQ, List.filterMap_cons, abs_eq_max_neg]⟩
  unfold match_voltage_sequence reconcileSpec
  by_cases hemp : expected.isEmpty ∨ actual.isEmpty
  · rcases hemp with h | h <;> rw [List.isEmpty_iff] at h <;> subst h
    · simp [firstDeviation]
    · cases expected <;> simp [firstDeviation]
  · rw [if_neg hemp, matchScan_eq_spec]
    cases h : firstDeviation (toleranceOf expected actual) expected actual with
    | none => simp
    | some k => simp [List.append_assoc]

/-- C1 counterexample.  With commanded [0, 100, 100.5] and measured
[0, 99.9], the claim computes baseStep over all consecutive commanded pairs
(minimum 0.5, tolerance 0.02*0.5 = 0.01) and therefore predicts the first
deviation at index 1 (|100 - 99.9| = 0.1 > 0.01) with output [0, 100]; the
code computes its step candidates only over range(length-1) = the single pair
(0,100), so its tolerance is 2 and it returns the measured values [0, 99.9]
unchanged. -/
theorem C1_counterexample :
    match_voltage_sequence [0, 100, 201/2] [0, 999/10] = [0, 999/10] ∧
    claimTolerance [0, 100, 201/2] = 1/100 ∧
    firstDeviation (claimTolerance [0, 100, 201/2]) [0, 100, 201/2] [0, 999/10] =
      some 1 ∧
    reconcileSpec [0, 100, 201/2] [0, 999/10] (claimTolerance [0, 100, 201/2]) =
      [0, 100] ∧
    ([0, 999/10] : List ℚ) ≠ [0, 100] := by
  have htol : claimTolerance [0, 100, 201/2] = 1/100 := by
    norm_num [claimTolerance, claimBaseStep, List.filterMap_cons, abs_eq_max_neg]
  refine ⟨?_, htol, ?_, ?_, by norm_num⟩
  · norm_num [match_voltage_sequence, matchScan, toleranceOf, base_step,
      step_candidates, iscloseQ, List.filterMap_cons, abs_eq_max_neg]
  · rw [htol]
    norm_num [firstDeviation, abs_eq_max_neg]
  · rw [htol]
    norm_num [reconcileSpec, firstDeviation, abs_eq_max_neg]

/-! ## Planner lemmas -/

theorem iscloseQ_false_of_lt (a b r t : ℚ) (h : max (r * max |a| |b|) t < |a - b|) :
    iscloseQ a b r t = false := by
  rw [iscloseQ, decide_eq_false_iff_not]
  exact not_le.mpr h

theorem nextLevel_pos (stop s ε current : ℚ) (hs : 0 < s) :
    nextLevel stop s ε current =
      if stop + ε < current + s then stop else current + s := by
  by_cases hc : stop + ε < current + s
  · simp [nextLevel, hs, hc]
  · simp [nextLevel, hc, not_le.mpr hs]

/-- Invariant of the generate_segment_levels while-loop in the ascending
direction, under parameter bounds that keep the relative term of isclose
strictly below one step: the produced levels are strictly increasing with
gaps of at most s, they stay within (current, stop + epsilon], and the last
level of the ladder (current itself when the loop breaks immediately) is
isclose to stop.  The fuel hypothesis is exactly the budget that
generate_segment_levels supplies. -/
theorem genLoopF_pos_spec (stop s ε B : ℚ) (hs : 0 < s) (hε : 0 < ε) (hεs : ε < s)
    (hrel : 1/10^9 * B < s) (hstopB : |stop| + ε ≤ B) :
    ∀ fuel current, -B ≤ current → current < stop →
      (⌈(stop - current) / s⌉).toNat < fuel →
      List.Chain' (fun a b => a < b ∧ b - a ≤ s)
          (current :: genLoopF stop s ε fuel current) ∧
      (∀ x ∈ genLoopF stop s ε fuel current, current < x ∧ x ≤ stop + ε) ∧
      iscloseQ ((genLoopF stop s ε fuel current).getLastD current) stop (1/10^9) ε
        = true := by
  intro fuel
  induction fuel with
  | zero => intro current _ _ hfuel; exact absurd hfuel (Nat.not_lt_zero _)
  | succ fuel ih =>
    intro current hBc hlt hfuel
    have hstopabs : |stop| ≤ B := by linarith
    have hcB : |current| ≤ B :=
      abs_le.mpr ⟨hBc, le_trans hlt.le (le_trans (le_abs_self stop) hstopabs)⟩
    by_cases hc : stop + ε < current + s
    · -- clamped iteration: the candidate next level is stop itself
      have hnext : nextLevel stop s ε current = stop := by
        rw [nextLevel_pos stop s ε current hs, if_pos hc]
      by_cases hcl : iscloseQ stop current (1/10^9) ε = true
      · -- loop breaks before appending; the ladder already ends isclose to stop
        simp only [genLoopF, hnext, hcl, if_true, List.getLastD_nil]
        refine ⟨List.chain'_singleton current, by simp, ?_⟩
        rw [iscloseQ_symm]
        exact hcl
      · rw [Bool.not_eq_true] at hcl
        have hclstop : iscloseQ stop stop (1/10^9) ε = true :=
          iscloseQ_self stop (1/10^9) ε (by norm_num)
        simp only [genLoopF, hnext, hcl, hclstop, Bool.false_eq_true, if_false,
          if_true, List.getLastD_cons, List.getLastD_nil]
        refine ⟨?_, ?_, trivial⟩
        · exact List.chain'_pair.mpr ⟨hlt, by linarith⟩
        · intro x hx
          rw [List.mem_singleton] at hx
          subst hx
          exact ⟨hlt, by linarith⟩
    · -- unclamped iteration: the candidate next level is current + s
      have hnext : nextLevel stop s ε current = current + s := by
        rw [nextLevel_pos stop s ε current hs, if_neg hc]
      have hle : current + s ≤ stop + ε := not_lt.mp hc
      have hnB : |current + s| ≤ B :=
        abs_le.mpr ⟨by linarith, by linarith [le_abs_self stop]⟩
      have hbound : max ((1/10^9) * max |current + s| |current|) ε < s := by
        refine max_lt ?_ hεs
        calc (1/10^9 : ℚ) * max |current + s| |current|
            ≤ 1/10^9 * B := by
              apply mul_le_mul_of_nonneg_left (max_le hnB hcB) (by norm_num)
          _ < s := hrel
      have hcl1 : iscloseQ (current + s) current (1/10^9) ε = false := by
        apply iscloseQ_false_of_lt
        rwa [add_sub_cancel_left, abs_of_pos hs]
      by_cases hcl2 : iscloseQ (current + s) stop (1/10^9) ε = true
      · -- the appended level is isclose to stop: final iteration
        simp only [genLoopF, hnext, hcl1, hcl2, Bool.false_eq_true, if_false,
          if_true, List.getLastD_cons, List.getLastD_nil]
        refine ⟨?_, ?_, trivial⟩
        · exact List.chain'_pair.mpr ⟨lt_add_of_pos_right current hs, by linarith⟩
        · intro x hx
          rw [List.mem_singleton] at hx
          subst hx
          exact ⟨lt_add_of_pos_right current hs, hle⟩
      · -- the loop keeps going: apply the induction hypothesis at current + s
        rw [Bool.not_eq_true] at hcl2
        have hprop : ¬(|current + s - stop| ≤
            max ((1/10^9) * max |current + s| |stop|) ε) := by
          rw [← iscloseQ_true_iff, hcl2]
          simp
        have hgap : ε < |current + s - stop| :=
          lt_of_le_of_lt (le_max_right _ _) (not_le.mp hprop)
        have hlt2 : current + s < stop := by
          by_contra hge
          push_neg at hge
          rw [abs_of_nonneg (by linarith)] at hgap
          linarith
        have hceil1 : 0 < ⌈(stop - current) / s⌉ :=
          Int.ceil_pos.mpr (div_pos (by linarith) hs)
        have hceil2 : ⌈(stop - (current + s)) / s⌉ =
            ⌈(stop - current) / s⌉ - 1 := by
          have hdiv : (stop - (current + s)) / s = (stop - current) / s - 1 := by
            field_simp
            ring
          rw [hdiv]
          have h1 := Int.ceil_sub_int ((stop - current) / s) 1
          rw [Int.cast_one] at h1
          exact h1
        have hfuel2 : (⌈(stop - (current + s)) / s⌉).toNat < fuel := by
          rw [hceil2]
          omega
        obtain ⟨ihchain, ihmem, ihlast⟩ := ih (current + s) (by linarith) hlt2 hfuel2
        simp only [genLoopF, hnext, hcl1, hcl2, Bool.false_eq_true, if_false,
          List.getLastD_cons]
        refine ⟨?_, ?_, ihlast⟩
        · exact List.chain'_cons.mpr
            ⟨⟨lt_add_of_pos_right current hs, by linarith⟩, ihchain⟩
        · intro x hx
          rcases List.mem_cons.mp hx with hx | hx
          · subst hx
            exact ⟨lt_add_of_pos_right current hs, hle⟩
          · exact ⟨lt_trans (lt_add_of_pos_right current hs) (ihmem x hx).1,
              (ihmem x hx).2⟩

theorem iscloseQ_neg (a b r t : ℚ) : iscloseQ (-a) (-b) r t = iscloseQ a b r t := by
  unfold iscloseQ
  rw [show -a - -b = -(a - b) by ring, abs_neg, abs_neg a, abs_neg b]

theorem nextLevel_neg (stop s ε current : ℚ) (hs : 0 < s) :
    nextLevel (-stop) (-s) ε (-current) = -nextLevel stop s ε current := by
  have h1 : ¬(0 < -s) := by linarith
  rw [nextLevel_pos stop s ε current hs]
  by_cases hc : stop + ε < current + s
  · rw [if_pos hc]
    unfold nextLevel
    rw [if_neg (fun h => h1 h.1), if_pos ⟨by linarith, by linarith⟩]
  · rw [if_neg hc]
    unfold nextLevel
    rw [if_neg (fun h => h1 h.1), if_neg (fun h => hc (by linarith [h.2]))]
    ring

/-- Mirror symmetry of the ladder loop: running it on the negated segment
produces the negated levels.  This transfers facts about ascending ladders to
descending ones. -/
theorem genLoopF_neg (stop s ε : ℚ) (hs : 0 < s) :
    ∀ fuel current,
      genLoopF (-stop) (-s) ε fuel (-current) =
        (genLoopF stop s ε fuel current).map (fun x => -x) := by
  intro fuel
  induction fuel with
  | zero => intro current; simp [genLoopF]
  | succ fuel ih =>
    intro current
    simp only [genLoopF, nextLevel_neg stop s ε current hs, iscloseQ_neg]
    by_cases h1 : iscloseQ (nextLevel stop s ε current) current (1/10^9) ε = true
    · rw [h1]
      simp
    · rw [Bool.not_eq_true] at h1
      by_cases h2 : iscloseQ (nextLevel stop s ε current) stop (1/10^9) ε = true
      · rw [h1, h2]
        simp
      · rw [Bool.not_eq_true] at h2
        rw [h1, h2]
        simp only [Bool.false_eq_true, if_false, List.map_cons]
        rw [← ih (nextLevel stop s ε current)]

theorem generate_neg (start stop s ε : ℚ) (hs : 0 < s) :
    generate_segment_levels (-start) (-stop) (-s) ε =
      (generate_segment_levels start stop s ε).map (fun x => -x) := by
  unfold generate_segment_levels
  have hf : fuelFor (-start) (-stop) (-s) = fuelFor start stop s := by
    unfold fuelFor
    rw [show -stop - -start = -(stop - start) by ring, neg_div_neg_eq]
  have hg : iscloseQ (-s) 0 (1/10^9) ε = iscloseQ s 0 (1/10^9) ε := by
    simp [iscloseQ]
  rw [hf, hg]
  by_cases h : iscloseQ s 0 (1/10^9) ε = true
  · rw [h]
    simp
  · rw [Bool.not_eq_true] at h
    rw [h]
    simp only [Bool.false_eq_true, if_false, List.map_cons]
    rw [genLoopF_neg stop s ε hs]

theorem getLastD_map_neg (l : List ℚ) :
    ∀ d, (l.map (fun x => -x)).getLastD (-d) = -(l.getLastD d) := by
  induction l with
  | nil => intro d; simp
  | cons a l ih => intro d; simp only [List.map_cons, List.getLastD_cons]; exact ih a

/-- Properties of one ascending generated ladder: nonempty ladder headed by
start, consecutive gaps at most s, all levels bounded by B in magnitude, and
a last level isclose to stop. -/
theorem generate_pos_spec (start stop s ε B : ℚ) (hs : 0 < s) (hε : 0 < ε)
    (hεs : ε < s) (hrel : 1/10^9 * B < s) (hstopB : |stop| + ε ≤ B)
    (hstartB : -B ≤ start) (hlt : start < stop) :
    generate_segment_levels start stop s ε ≠ [] ∧
    (generate_segment_levels start stop s ε).head? = some start ∧
    List.Chain' (fun a b => |b - a| ≤ s) (generate_segment_levels start stop s ε) ∧
    (∀ x ∈ generate_segment_levels start stop s ε, |x| ≤ B) ∧
    iscloseQ ((generate_segment_levels start stop s ε).getLastD 0) stop
      (1/10^9) ε = true := by
  have hstopabs : |stop| ≤ B := by linarith
  have hguard : iscloseQ s 0 (1/10^9) ε = false := by
    apply iscloseQ_false_of_lt
    simp only [sub_zero, abs_zero]
    rw [max_eq_left (abs_nonneg s), abs_of_pos hs]
    exact max_lt (by linarith) hεs
  have hfuel : (⌈(stop - start) / s⌉).toNat < fuelFor start stop s := by
    unfold fuelFor
    omega
  obtain ⟨hchain, hmem, hlast⟩ :=
    genLoopF_pos_spec stop s ε B hs hε hεs hrel hstopB (fuelFor start stop s)
      start hstartB hlt hfuel
  unfold generate_segment_levels
  simp only [hguard, Bool.false_eq_true, if_false]
  refine ⟨List.cons_ne_nil _ _, rfl, ?_, ?_, ?_⟩
  · exact hchain.imp (fun a b hab => abs_le.mpr ⟨by linarith [hab.1], hab.2⟩)
  · intro x hx
    rcases List.mem_cons.mp hx with hx | hx
    · subst hx
      exact abs_le.mpr ⟨hstartB, by linarith [le_abs_self stop]⟩
    · obtain ⟨h1, h2⟩ := hmem x hx
      exact abs_le.mpr ⟨by linarith, by linarith [le_abs_self stop]⟩
  · rw [List.getLastD_cons]
    exact hlast

/-- Properties of one descending generated ladder, by mirror symmetry from
the ascending case. -/
theorem generate_down_spec (start stop s ε B : ℚ) (hs : 0 < s) (hε : 0 < ε)
    (hεs : ε < s) (hrel : 1/10^9 * B < s) (hstopB : |stop| + ε ≤ B)
    (hstartB : start ≤ B) (hgt : stop < start) :
    generate_segment_levels start stop (-s) ε ≠ [] ∧
    (generate_segment_levels start stop (-s) ε).head? = some start ∧
    List.Chain' (fun a b => |b - a| ≤ s)
      (generate_segment_levels start stop (-s) ε) ∧
    (∀ x ∈ generate_segment_levels start stop (-s) ε, |x| ≤ B) ∧
    iscloseQ ((generate_segment_levels start stop (-s) ε).getLastD 0) stop
      (1/10^9) ε = true := by
  have key : generate_segment_levels start stop (-s) ε =
      (generate_segment_levels (-start) (-stop) s ε).map (fun x => -x) := by
    have h := generate_neg (-start) (-stop) s ε hs
    simpa [neg_neg] using h
  obtain ⟨hne, hhead, hchain, hmem, hlast⟩ :=
    generate_pos_spec (-start) (-stop) s ε B hs hε hεs hrel (by simpa using hstopB)
      (by linarith) (by linarith)
  rw [key]
  refine ⟨?_, ?_, ?_, ?_, ?_⟩
  · intro hmap
    exact hne (List.map_eq_nil_iff.mp hmap)
  · rw [List.head?_map, hhead]
    simp
  · rw [List.chain'_map]
    exact hchain.imp (fun a b hab => by rw [neg_sub_neg, abs_sub_comm]; exact hab)
  · intro x hx
    rcases List.mem_map.mp hx with ⟨y, hy, rfl⟩
    simpa using hmem y hy
  · rw [show (0 : ℚ) = -0 by norm_num, getLastD_map_neg, ← neg_neg stop,
      iscloseQ_neg]
    simpa using hlast

theorem map_range_succ_shift (g : ℕ → ℚ) (n : ℕ) :
    (List.range (n + 1)).map g = g 0 :: (List.range n).map (fun i => g (i + 1)) := by
  rw [List.range_succ_eq_map, List.map_cons, List.map_map]
  rfl

/-- Two values at distance at least s cannot be isclose when the relative
term is capped below s by the magnitude bound B and the absolute tolerance is
below s. -/
theorem not_close_of_bounds (x y ε B s : ℚ) (hεs : ε < s) (hrel : 1/10^9 * B < s)
    (hx : |x| ≤ B) (hy : |y| ≤ B) (hdiff : s ≤ |x - y|) :
    iscloseQ x y (1/10^9) ε = false := by
  apply iscloseQ_false_of_lt
  refine lt_of_lt_of_le (max_lt ?_ hεs) hdiff
  calc (1/10^9 : ℚ) * max |x| |y| ≤ 1/10^9 * B := by
        apply mul_le_mul_of_nonneg_left (max_le hx hy) (by norm_num)
    _ < s := hrel

/-- Closed form of the ladder loop when stop is exactly m+1 ascending steps
away from current: the loop walks the arithmetic progression and lands
exactly on stop. -/
theorem genLoopF_exact (stop s ε B : ℚ) (hs : 0 < s) (hε : 0 < ε) (hεs : ε < s)
    (hrel : 1/10^9 * B < s) (hstopB : |stop| + ε ≤ B) :
    ∀ (m fuel : ℕ) (current : ℚ), current = stop - ((m : ℚ) + 1) * s →
      -B ≤ current → m < fuel →
      genLoopF stop s ε fuel current =
        (List.range (m + 1)).map (fun i : ℕ => current + ((i : ℚ) + 1) * s) := by
  intro m
  have hstopabs : |stop| ≤ B := by linarith
  induction m with
  | zero =>
    intro fuel current hcur hB hfuel
    obtain ⟨f, rfl⟩ : ∃ f, fuel = f + 1 := ⟨fuel - 1, by omega⟩
    have hcs : current + s = stop := by rw [hcur]; push_cast; ring
    have hltc : current < stop := by rw [hcur]; push_cast; nlinarith
    have hcB : |current| ≤ B := abs_le.mpr ⟨hB, by linarith [le_abs_self stop]⟩
    have hnB : |current + s| ≤ B := by rw [hcs]; exact hstopabs
    have hnext : nextLevel stop s ε current = current + s := by
      rw [nextLevel_pos stop s ε current hs, if_neg (by rw [hcs]; linarith)]
    have hcl1 : iscloseQ (current + s) current (1/10^9) ε = false := by
      apply not_close_of_bounds _ _ ε B s hεs hrel hnB hcB
      rw [add_sub_cancel_left, abs_of_pos hs]
    have hcl2 : iscloseQ (current + s) stop (1/10^9) ε = true := by
      rw [hcs]
      exact iscloseQ_self stop (1/10^9) ε (by norm_num)
    simp only [genLoopF, hnext, hcl1, hcl2, Bool.false_eq_true, if_false, if_true]
    simp [List.range_succ]
  | succ m ih =>
    intro fuel current hcur hB hfuel
    obtain ⟨f, rfl⟩ : ∃ f, fuel = f + 1 := ⟨fuel - 1, by omega⟩
    have hm1pos : (0 : ℚ) < ((m : ℚ) + 1) * s := by positivity
    have hcs : current + s = stop - ((m : ℚ) + 1) * s := by
      rw [hcur]; push_cast; ring
    have hlt2 : current + s < stop := by rw [hcs]; linarith
    have hltc : current < stop := by linarith
    have hcB : |current| ≤ B := abs_le.mpr ⟨hB, by linarith [le_abs_self stop]⟩
    have hnB : |current + s| ≤ B :=
      abs_le.mpr ⟨by linarith, by linarith [le_abs_self stop]⟩
    have hnext : nextLevel stop s ε current = current + s := by
      rw [nextLevel_pos stop s ε current hs, if_neg (by linarith)]
    have hcl1 : iscloseQ (current + s) current (1/10^9) ε = false := by
      apply not_close_of_bounds _ _ ε B s hεs hrel hnB hcB
      rw [add_sub_cancel_left, abs_of_pos hs]
    have hcl2 : iscloseQ (current + s) stop (1/10^9) ε = false := by
      apply not_close_of_bounds _ _ ε B s hεs hrel hnB hstopabs
      rw [show current + s - stop = -(((m : ℚ) + 1) * s) by rw [hcs]; ring,
        abs_neg, abs_of_pos hm1pos]
      nlinarith [Nat.cast_nonneg (α := ℚ) m]
    simp only [genLoopF, hnext, hcl1, hcl2, Bool.false_eq_true, if_false]
    rw [ih f (current + s) hcs (by linarith) (by omega)]
    rw [map_range_succ_shift (fun i : ℕ => current + ((i : ℚ) + 1) * s) (m + 1)]
    congr 1
    · push_cast
      ring
    · have hfun : (fun i : ℕ => current + (((i : ℕ) + 1 : ℕ) + 1 : ℚ) * s) =
          fun i : ℕ => (current + s) + ((i : ℚ) + 1) * s := by
        funext i
        push_cast
        ring
      rw [← hfun]

/-- Closed form of generate_segment_levels when stop is exactly m+1 ascending
steps from start: the arithmetic progression with m+2 points. -/
theorem generate_exact (start stop s ε B : ℚ) (m : ℕ) (hs : 0 < s) (hε : 0 < ε)
    (hεs : ε < s) (hrel : 1/10^9 * B < s) (hstopB : |stop| + ε ≤ B)
    (hstartB : -B ≤ start) (hm : stop = start + ((m : ℚ) + 1) * s) :
    generate_segment_levels start stop s ε =
      (List.range (m + 2)).map (fun i : ℕ => start + (i : ℚ) * s) := by
  have hguard : iscloseQ s 0 (1/10^9) ε = false := by
    apply iscloseQ_false_of_lt
    simp only [sub_zero, abs_zero]
    rw [max_eq_left (abs_nonneg s), abs_of_pos hs]
    exact max_lt (by linarith) hεs
  have hcur : start = stop - ((m : ℚ) + 1) * s := by rw [hm]; ring
  have hfuel : m < fuelFor start stop s := by
    unfold fuelFor
    have hdivm : (stop - start) / s = ((m + 1 : ℕ) : ℚ) := by
      rw [hm]
      push_cast
      field_simp
    rw [hdivm, Int.ceil_natCast, Int.toNat_natCast]
    omega
  unfold generate_segment_levels
  rw [hguard]
  simp only [Bool.false_eq_true, if_false]
  rw [genLoopF_exact stop s ε B hs hε hεs hrel hstopB m _ start hcur hstartB hfuel]
  rw [map_range_succ_shift (fun i : ℕ => start + (i : ℚ) * s) (m + 1)]
  congr 1
  · push_cast
    ring
  · have hfun : (fun i : ℕ => start + ((((i : ℕ) + 1 : ℕ) : ℚ)) * s) =
        fun i : ℕ => start + ((i : ℚ) + 1) * s := by
      funext i
      push_cast
      ring
    rw [← hfun]

/-- Unfolding of append_segment when the isclose guard does not fire. -/
theorem appendSegment_not_close (sm ε : ℚ) (A : List Segment) (P : List ℚ)
    (a b : ℚ) (h : iscloseQ a b (1/10^9) ε = false) :
    appendSegment sm ε (A, P) a b =
      (A ++ [⟨a, b, if a ≤ b then sm else -sm⟩],
        P ++ generate_segment_levels a b (if a ≤ b then sm else -sm) ε) := by
  unfold appendSegment
  rw [h]
  simp

theorem generate_isEmpty_false (start stop s ε : ℚ) :
    (generate_segment_levels start stop s ε).isEmpty = false := rfl

/-- C4.  For SweepParameters start = -4.0, stop = 4.0, step = 0.1, the
planner emits exactly the four segments 0 to 4, 4 to 0, 0 to -4, -4 to 0 in
that order; each of the four ladders holds exactly 41 points (about 40), and
the concatenated commanded path has exactly 164 points (about 160). -/
theorem C4_planner_example :
    (∃ path : List ℚ,
      build_segments (-4) 4 (1/10) =
        Except.ok ([⟨0, 4, 1/10⟩, ⟨4, 0, -(1/10)⟩, ⟨0, -4, -(1/10)⟩, ⟨-4, 0, 1/10⟩],
          path) ∧
      path =
        generate_segment_levels 0 4 (1/10) (epsilonOf (1/10)) ++
          (generate_segment_levels 4 0 (-(1/10)) (epsilonOf (1/10)) ++
            (generate_segment_levels 0 (-4) (-(1/10)) (epsilonOf (1/10)) ++
              generate_segment_levels (-4) 0 (1/10) (epsilonOf (1/10)))) ∧
      path.length = 164) ∧
    (generate_segment_levels 0 4 (1/10) (epsilonOf (1/10))).length = 41 ∧
    (generate_segment_levels 4 0 (-(1/10)) (epsilonOf (1/10))).length = 41 ∧
    (generate_segment_levels 0 (-4) (-(1/10)) (epsilonOf (1/10))).length = 41 ∧
    (generate_segment_levels (-4) 0 (1/10) (epsilonOf (1/10))).length = 41 := by
  have hεval : epsilonOf (1/10) = 101/10^12 := by
    norm_num [epsilonOf, abs_eq_max_neg]
  have hL1 : generate_segment_levels 0 4 (1/10) (epsilonOf (1/10)) =
      (List.range 41).map (fun i : ℕ => 0 + (i : ℚ) * (1/10)) := by
    apply generate_exact 0 4 (1/10) (epsilonOf (1/10)) 5 39 (by norm_num)
      (by rw [hεval]; norm_num) (by rw [hεval]; norm_num) (by norm_num)
      (by rw [hεval]; norm_num [abs_eq_max_neg]) (by norm_num)
    push_cast
    norm_num
  have hL4 : generate_segment_levels (-4) 0 (1/10) (epsilonOf (1/10)) =
      (List.range 41).map (fun i : ℕ => -4 + (i : ℚ) * (1/10)) := by
    apply generate_exact (-4) 0 (1/10) (epsilonOf (1/10)) 5 39 (by norm_num)
      (by rw [hεval]; norm_num) (by rw [hεval]; norm_num) (by norm_num)
      (by rw [hεval]; norm_num [abs_eq_max_neg]) (by norm_num)
    push_cast
    norm_num
  have hL2 : generate_segment_levels 4 0 (-(1/10)) (epsilonOf (1/10)) =
      (generate_segment_levels (-4) 0 (1/10) (epsilonOf (1/10))).map
        (fun x => -x) := by
    have h := generate_neg (-4) 0 (1/10) (epsilonOf (1/10)) (by norm_num)
    simpa using h
  have hL3 : generate_segment_levels 0 (-4) (-(1/10)) (epsilonOf (1/10)) =
      (generate_segment_levels 0 4 (1/10) (epsilonOf (1/10))).map
        (fun x => -x) := by
    have h := generate_neg 0 4 (1/10) (epsilonOf (1/10)) (by norm_num)
    simpa using h
  have hlen1 : (generate_segment_levels 0 4 (1/10) (epsilonOf (1/10))).length = 41 := by
    rw [hL1, List.length_map, List.length_range]
  have hlen4 : (generate_segment_levels (-4) 0 (1/10) (epsilonOf (1/10))).length = 41 := by
    rw [hL4, List.length_map, List.length_range]
  have hlen2 : (generate_segment_levels 4 0 (-(1/10)) (epsilonOf (1/10))).length = 41 := by
    rw [hL2, List.length_map, hlen4]
  have hlen3 : (generate_segment_levels 0 (-4) (-(1/10)) (epsilonOf (1/10))).length = 41 := by
    rw [hL3, List.length_map, hlen1]
  refine ⟨⟨_, ?_, rfl, ?_⟩, hlen1, hlen2, hlen3, hlen4⟩
  · have hstep : iscloseQ |(1/10 : ℚ)| 0 (1/10^9) (1/10^15) = false := by
      rw [iscloseQ, decide_eq_false_iff_not]
      norm_num [abs_eq_max_neg]
    have hc04 : iscloseQ 0 4 (1/10^9) (epsilonOf (1/10)) = false := by
      rw [iscloseQ, decide_eq_false_iff_not, hεval]
      norm_num [abs_eq_max_neg]
    have hc40 : iscloseQ 4 0 (1/10^9) (epsilonOf (1/10)) = false := by
      rw [iscloseQ, decide_eq_false_iff_not, hεval]
      norm_num [abs_eq_max_neg]
    have hc0n : iscloseQ 0 (-4) (1/10^9) (epsilonOf (1/10)) = false := by
      rw [iscloseQ, decide_eq_false_iff_not, hεval]
      norm_num [abs_eq_max_neg]
    have hcn0 : iscloseQ (-4) 0 (1/10^9) (epsilonOf (1/10)) = false := by
      rw [iscloseQ, decide_eq_false_iff_not, hεval]
      norm_num [abs_eq_max_neg]
    simp only [build_segments, hstep, Bool.false_eq_true, if_false]
    rw [show max (max (-4 : ℚ) 4) 0 = 4 by norm_num,
      show min (min (-4 : ℚ) 4) 0 = -4 by norm_num,
      show |(1/10 : ℚ)| = 1/10 by norm_num [abs_eq_max_neg]]
    rw [if_pos (show epsilonOf (1/10) < (4 : ℚ) by rw [hεval]; norm_num),
      if_pos (show (-4 : ℚ) < -epsilonOf (1/10) by rw [hεval]; norm_num)]
    rw [appendSegment_not_close _ _ _ _ _ _ hc04,
      if_pos (show (0 : ℚ) ≤ 4 by norm_num)]
    rw [appendSegment_not_close _ _ _ _ _ _ hc40,
      if_neg (show ¬(4 : ℚ) ≤ 0 by norm_num)]
    rw [appendSegment_not_close _ _ _ _ _ _ hc0n,
      if_neg (show ¬(0 : ℚ) ≤ -4 by norm_num)]
    rw [appendSegment_not_close _ _ _ _ _ _ hcn0,
      if_pos (show (-4 : ℚ) ≤ 0 by norm_num)]
    dsimp only
    have hsne : (([] : List Segment) ++ [(⟨0, 4, 1/10⟩ : Segment)] ++
        [(⟨4, 0, -(1/10)⟩ : Segment)] ++ [(⟨0, -4, -(1/10)⟩ : Segment)] ++
        [(⟨-4, 0, 1/10⟩ : Segment)]).isEmpty = false := by
      simp
    rw [hsne]
    simp only [Bool.false_eq_true, if_false]
    have hpne : (([] : List ℚ) ++ generate_segment_levels 0 4 (1/10) (epsilonOf (1/10)) ++
        generate_segment_levels 4 0 (-(1/10)) (epsilonOf (1/10)) ++
        generate_segment_levels 0 (-4) (-(1/10)) (epsilonOf (1/10)) ++
        generate_segment_levels (-4) 0 (1/10) (epsilonOf (1/10))).isEmpty = false := by
      rw [List.isEmpty_eq_false]
      intro hnil
      rcases List.append_eq_nil.mp hnil with ⟨-, h4⟩
      simp [generate_segment_levels] at h4
    rw [hpne]
    simp only [Bool.false_eq_true, if_false]
    simp [List.append_assoc]
  · rw [hL1, hL2, hL3, hL4]
    simp only [List.length_append, List.length_map, List.length_range, hlen4, hlen1]

theorem head?_append_left (l1 l2 : List ℚ) (h : l1 ≠ []) :
    (l1 ++ l2).head? = l1.head? := by
  cases l1 with
  | nil => exact absurd rfl h
  | cons a l => simp

theorem getLast?_append_right (l1 l2 : List ℚ) (h : l2 ≠ []) :
    (l1 ++ l2).getLast? = l2.getLast? :=
  List.getLast?_append_of_ne_nil l1 h

theorem getLast?_eq_getLastD (l : List ℚ) (h : l ≠ []) :
    l.getLast? = some (l.getLastD 0) := by
  induction l with
  | nil => exact absurd rfl h
  | cons a l ih =>
    cases l with
    | nil => simp
    | cons b l2 =>
      rw [List.getLastD_cons]
      rw [List.getLast?_cons_cons]
      exact ih (List.cons_ne_nil _ _)

theorem getLastD_mem (l : List ℚ) (h : l ≠ []) (d : ℚ) : l.getLastD d ∈ l := by
  induction l generalizing d with
  | nil => exact absurd rfl h
  | cons a l ih =>
    rw [List.getLastD_cons]
    cases l with
    | nil => simp
    | cons b l2 => exact List.mem_cons_of_mem a (ih (List.cons_ne_nil _ _) a)

/-- A value isclose to t differs from t by at most sm once both magnitudes
stay below the bound B that keeps the relative term under sm. -/
theorem close_gap (x t ε B sm : ℚ) (hx : |x| ≤ B) (ht : |t| ≤ B) (hεs : ε < sm)
    (hrel : 1/10^9 * B < sm) (hcl : iscloseQ x t (1/10^9) ε = true) :
    |t - x| ≤ sm := by
  rw [iscloseQ_true_iff] at hcl
  rw [abs_sub_comm]
  calc |x - t| ≤ max (1/10^9 * max |x| |t|) ε := hcl
    _ ≤ sm :=
      max_le
        (le_of_lt (lt_of_le_of_lt
          (mul_le_mul_of_nonneg_left (max_le hx ht) (by norm_num)) hrel))
        hεs.le

/-- The fallback ladder of _build_segments, ascending case: when start and
stop both sit within epsilon of zero and the step clears three epsilons, the
first loop iteration clamps to stop and the ladder is either just [start]
(with start already isclose to stop) or [start, stop]. -/
theorem generate_fallback_pos (start stop s ε : ℚ) (hs : 0 < s) (hε : 0 < ε)
    (h3ε : 3 * ε < s) (hstart : |start| ≤ ε) (hstop : |stop| ≤ ε) :
    (generate_segment_levels start stop s ε = [start] ∧
      iscloseQ start stop (1/10^9) ε = true) ∨
    generate_segment_levels start stop s ε = [start, stop] := by
  have hguard : iscloseQ s 0 (1/10^9) ε = false := by
    apply iscloseQ_false_of_lt
    simp only [sub_zero, abs_zero]
    rw [max_eq_left (abs_nonneg s), abs_of_pos hs]
    exact max_lt (by linarith) (by linarith)
  obtain ⟨hstart1, hstart2⟩ := abs_le.mp hstart
  obtain ⟨hstop1, hstop2⟩ := abs_le.mp hstop
  obtain ⟨f, hf⟩ : ∃ f, fuelFor start stop s = f + 1 :=
    ⟨fuelFor start stop s - 1, by unfold fuelFor; omega⟩
  have hnext : nextLevel stop s ε start = stop := by
    rw [nextLevel_pos stop s ε start hs, if_pos (by linarith)]
  unfold generate_segment_levels
  rw [hguard]
  simp only [Bool.false_eq_true, if_false]
  rw [hf]
  simp only [genLoopF, hnext]
  by_cases hcl : iscloseQ stop start (1/10^9) ε = true
  · rw [hcl]
    simp only [if_true]
    left
    refine ⟨by simp, ?_⟩
    rw [iscloseQ_symm]
    exact hcl
  · rw [Bool.not_eq_true] at hcl
    rw [hcl, iscloseQ_self stop (1/10^9) ε (by norm_num)]
    simp only [Bool.false_eq_true, if_false, if_true]
    right
    simp

/-- A target strictly further than epsilon from 0 is not isclose to 0 in
either argument order (with rel_tol 1e-9, whose relative term cannot reach a
full |t|). -/
theorem not_close_zero_target (t ε : ℚ) (hε : 0 < ε) (ht : ε < |t|) :
    iscloseQ 0 t (1/10^9) ε = false ∧ iscloseQ t 0 (1/10^9) ε = false := by
  constructor <;> apply iscloseQ_false_of_lt
  · rw [zero_sub, abs_neg, abs_zero, max_eq_right (abs_nonneg t)]
    exact max_lt (by linarith) ht
  · rw [sub_zero, abs_zero, max_eq_left (abs_nonneg t)]
    exact max_lt (by linarith) ht

/-- C5 (amended).  For every start, stop and step whose magnitude is at least
1e-11 and whose sweep amplitude max(|start|,|stop|) is at most 1e7 times the
step magnitude (so that the relative term of math.isclose can never mask a
whole step), the planner succeeds and its concatenated commanded path is
nonempty, starts within epsilon of 0, ends within epsilon of 0, has
consecutive levels never further apart than one step magnitude (so it never
skips over stop by more than one step), and every segment's ladder lands
within the isclose tolerance of that segment's stop (rather than exactly on
it). -/
theorem C5_planner_round_trip (start_v stop_v step_v : ℚ)
    (hstep : 1/10^11 ≤ |step_v|)
    (hamp : max |start_v| |stop_v| ≤ 10^7 * |step_v|) :
    ∃ segs path, build_segments start_v stop_v step_v = Except.ok (segs, path) ∧
      path ≠ [] ∧
      (∀ x ∈ path.head?, |x| ≤ epsilonOf step_v) ∧
      (∀ x ∈ path.getLast?, |x| ≤ epsilonOf step_v) ∧
      path.Chain' (fun a b => |b - a| ≤ |step_v|) ∧
      ∀ seg ∈ segs,
        iscloseQ ((generate_segment_levels seg.startLevel seg.stopLevel
          seg.stepSigned (epsilonOf step_v)).getLastD 0) seg.stopLevel
          (1/10^9) (epsilonOf step_v) = true := by
  have hsm : 0 < |step_v| := lt_of_lt_of_le (by norm_num) hstep
  have hε0 : 0 < epsilonOf step_v := by unfold epsilonOf; positivity
  have hεs : epsilonOf step_v < |step_v| := by unfold epsilonOf; linarith
  have h3ε : 3 * epsilonOf step_v < |step_v| := by unfold epsilonOf; linarith
  have hrel : 1/10^9 * (10^7 * |step_v| + |step_v|) < |step_v| := by linarith
  have hstepguard : iscloseQ |step_v| 0 (1/10^9) (1/10^15) = false := by
    apply iscloseQ_false_of_lt
    simp only [sub_zero, abs_zero, abs_abs]
    have hmax : max |step_v| 0 = |step_v| := max_eq_left (abs_nonneg step_v)
    rw [hmax]
    exact max_lt (by linarith) (by linarith)
  have hp0 : 0 ≤ max (max start_v stop_v) 0 := le_max_right _ _
  have hpmax : max (max start_v stop_v) 0 ≤ max |start_v| |stop_v| := by
    apply max_le (max_le (le_trans (le_abs_self _) (le_max_left _ _))
      (le_trans (le_abs_self _) (le_max_right _ _)))
    exact le_max_of_le_left (abs_nonneg _)
  have hpB : |max (max start_v stop_v) 0| + epsilonOf step_v ≤
      10^7 * |step_v| + |step_v| := by
    rw [abs_of_nonneg hp0]
    linarith
  have hn0 : min (min start_v stop_v) 0 ≤ 0 := min_le_right _ _
  have hnlow : -(max |start_v| |stop_v|) ≤ min (min start_v stop_v) 0 := by
    refine le_min (le_min ?_ ?_)
      (neg_nonpos.mpr (le_max_of_le_left (abs_nonneg _)))
    · exact le_trans (neg_le_neg (le_max_left _ _)) (neg_abs_le start_v)
    · exact le_trans (neg_le_neg (le_max_right _ _)) (neg_abs_le stop_v)
  have hnB : |min (min start_v stop_v) 0| + epsilonOf step_v ≤
      10^7 * |step_v| + |step_v| := by
    rw [abs_of_nonpos hn0]
    linarith
  by_cases hpos : epsilonOf step_v < max (max start_v stop_v) 0
  · have hppos : 0 < max (max start_v stop_v) 0 := lt_trans hε0 hpos
    have hpabs : |max (max start_v stop_v) 0| ≤ 10^7 * |step_v| + |step_v| := by
      linarith
    obtain ⟨hne1, hhead1, hchain1, hmem1, hlast1⟩ :=
      generate_pos_spec 0 (max (max start_v stop_v) 0) |step_v| (epsilonOf step_v)
        (10^7 * |step_v| + |step_v|) hsm hε0 hεs hrel hpB
        (neg_nonpos.mpr (by positivity)) hppos
    obtain ⟨hne2, hhead2, hchain2, hmem2, hlast2⟩ :=
      generate_down_spec (max (max start_v stop_v) 0) 0 |step_v| (epsilonOf step_v)
        (10^7 * |step_v| + |step_v|) hsm hε0 hεs hrel (by rw [abs_zero]; linarith)
        (by rw [abs_of_nonneg hp0] at hpB; linarith) hppos
    obtain ⟨hcp1, hcp2⟩ := not_close_zero_target (max (max start_v stop_v) 0)
      (epsilonOf step_v) hε0 (by rw [abs_of_nonneg hp0]; exact hpos)
    have hbound12 : ∀ x ∈ (generate_segment_levels 0 (max (max start_v stop_v) 0)
        |step_v| (epsilonOf step_v)).getLast?,
        ∀ y ∈ (generate_segment_levels (max (max start_v stop_v) 0) 0
          (-|step_v|) (epsilonOf step_v)).head?, |y - x| ≤ |step_v| := by
      rw [getLast?_eq_getLastD _ hne1, hhead2]
      intro x hx y hy
      rw [Option.mem_def, Option.some_inj] at hx hy
      subst hx
      subst hy
      exact close_gap _ _ (epsilonOf step_v) (10^7 * |step_v| + |step_v|) _
        (hmem1 _ (getLastD_mem _ hne1 0)) hpabs hεs hrel hlast1
    by_cases hneg : min (min start_v stop_v) 0 < -epsilonOf step_v
    · -- both targets produce a pair of segments: four ladders
      have hnneg : min (min start_v stop_v) 0 < 0 := by linarith
      have hnabs : |min (min start_v stop_v) 0| ≤ 10^7 * |step_v| + |step_v| := by
        linarith
      obtain ⟨hne3, hhead3, hchain3, hmem3, hlast3⟩ :=
        generate_down_spec 0 (min (min start_v stop_v) 0) |step_v| (epsilonOf step_v)
          (10^7 * |step_v| + |step_v|) hsm hε0 hεs hrel hnB (by positivity) hnneg
      obtain ⟨hne4, hhead4, hchain4, hmem4, hlast4⟩ :=
        generate_pos_spec (min (min start_v stop_v) 0) 0 |step_v| (epsilonOf step_v)
          (10^7 * |step_v| + |step_v|) hsm hε0 hεs hrel (by rw [abs_zero]; linarith)
          (abs_le.mp (by linarith)).1 hnneg
      obtain ⟨hcn1, hcn2⟩ := not_close_zero_target (min (min start_v stop_v) 0)
        (epsilonOf step_v) hε0
        (by rw [abs_of_nonpos hn0]; linarith)
      refine ⟨[⟨0, max (max start_v stop_v) 0, |step_v|⟩,
          ⟨max (max start_v stop_v) 0, 0, -|step_v|⟩,
          ⟨0, min (min start_v stop_v) 0, -|step_v|⟩,
          ⟨min (min start_v stop_v) 0, 0, |step_v|⟩],
        generate_segment_levels 0 (max (max start_v stop_v) 0) |step_v|
            (epsilonOf step_v) ++
          (generate_segment_levels (max (max start_v stop_v) 0) 0 (-|step_v|)
              (epsilonOf step_v) ++
            (generate_segment_levels 0 (min (min start_v stop_v) 0) (-|step_v|)
                (epsilonOf step_v) ++
              generate_segment_levels (min (min start_v stop_v) 0) 0 |step_v|
                (epsilonOf step_v))), ?_, ?_, ?_, ?_, ?_, ?_⟩
      · simp only [build_segments, hstepguard, Bool.false_eq_true, if_false]
        rw [if_pos hpos, if_pos hneg]
        rw [appendSegment_not_close _ _ _ _ _ _ hcp1, if_pos hp0]
        rw [appendSegment_not_close _ _ _ _ _ _ hcp2,
          if_neg (not_le.mpr hppos)]
        rw [appendSegment_not_close _ _ _ _ _ _ hcn1,
          if_neg (not_le.mpr hnneg)]
        rw [appendSegment_not_close _ _ _ _ _ _ hcn2, if_pos hn0]
        dsimp only
        rw [show (([] : List Segment) ++
            [(⟨0, max (max start_v stop_v) 0, |step_v|⟩ : Segment)] ++
            [(⟨max (max start_v stop_v) 0, 0, -|step_v|⟩ : Segment)] ++
            [(⟨0, min (min start_v stop_v) 0, -|step_v|⟩ : Segment)] ++
            [(⟨min (min start_v stop_v) 0, 0, |step_v|⟩ : Segment)]).isEmpty = false
          by simp]
        simp only [Bool.false_eq_true, if_false]
        rw [show (([] : List ℚ) ++
            generate_segment_levels 0 (max (max start_v stop_v) 0) |step_v|
              (epsilonOf step_v) ++
            generate_segment_levels (max (max start_v stop_v) 0) 0 (-|step_v|)
              (epsilonOf step_v) ++
            generate_segment_levels 0 (min (min start_v stop_v) 0) (-|step_v|)
              (epsilonOf step_v) ++
            generate_segment_levels (min (min start_v stop_v) 0) 0 |step_v|
              (epsilonOf step_v)).isEmpty = false by
          rw [List.isEmpty_eq_false]
          intro hnil
          rcases List.append_eq_nil.mp hnil with ⟨-, h4⟩
          simp [generate_segment_levels] at h4]
        simp only [Bool.false_eq_true, if_false]
        simp [List.append_assoc]
      · intro h
        exact hne1 (List.append_eq_nil.mp h).1
      · rw [head?_append_left _ _ hne1, hhead1]
        intro x hx
        rw [Option.mem_def, Option.some_inj] at hx
        subst hx
        simpa using hε0.le
      · have hne34 : generate_segment_levels 0 (min (min start_v stop_v) 0)
            (-|step_v|) (epsilonOf step_v) ++
            generate_segment_levels (min (min start_v stop_v) 0) 0 |step_v|
              (epsilonOf step_v) ≠ [] := by
          intro h
          exact hne3 (List.append_eq_nil.mp h).1
        have hne234 : generate_segment_levels (max (max start_v stop_v) 0) 0
            (-|step_v|) (epsilonOf step_v) ++
            (generate_segment_levels 0 (min (min start_v stop_v) 0) (-|step_v|)
                (epsilonOf step_v) ++
              generate_segment_levels (min (min start_v stop_v) 0) 0 |step_v|
                (epsilonOf step_v)) ≠ [] := by
          intro h
          exact hne2 (List.append_eq_nil.mp h).1
        rw [getLast?_append_right _ _ hne234, getLast?_append_right _ _ hne34,
          getLast?_append_right _ _ hne4, getLast?_eq_getLastD _ hne4]
        intro x hx
        rw [Option.mem_def, Option.some_inj] at hx
        subst hx
        exact iscloseQ_zero_abs _ _ hε0.le hlast4
      · have hbound34 : ∀ x ∈ (generate_segment_levels 0
            (min (min start_v stop_v) 0) (-|step_v|)
            (epsilonOf step_v)).getLast?,
            ∀ y ∈ (generate_segment_levels (min (min start_v stop_v) 0) 0
              |step_v| (epsilonOf step_v)).head?, |y - x| ≤ |step_v| := by
          rw [getLast?_eq_getLastD _ hne3, hhead4]
          intro x hx y hy
          rw [Option.mem_def, Option.some_inj] at hx hy
          subst hx
          subst hy
          exact close_gap _ _ (epsilonOf step_v) (10^7 * |step_v| + |step_v|) _
            (hmem3 _ (getLastD_mem _ hne3 0)) hnabs hεs hrel hlast3
        have hbound23 : ∀ x ∈ (generate_segment_levels
            (max (max start_v stop_v) 0) 0 (-|step_v|)
            (epsilonOf step_v)).getLast?,
            ∀ y ∈ ((generate_segment_levels 0 (min (min start_v stop_v) 0)
                (-|step_v|) (epsilonOf step_v)) ++
              generate_segment_levels (min (min start_v stop_v) 0) 0 |step_v|
                (epsilonOf step_v)).head?, |y - x| ≤ |step_v| := by
          rw [getLast?_eq_getLastD _ hne2, head?_append_left _ _ hne3, hhead3]
          intro x hx y hy
          rw [Option.mem_def, Option.some_inj] at hx hy
          subst hx
          subst hy
          have hx2 : |(generate_segment_levels (max (max start_v stop_v) 0) 0
              (-|step_v|) (epsilonOf step_v)).getLastD 0| ≤ epsilonOf step_v :=
            iscloseQ_zero_abs _ _ hε0.le hlast2
          calc |0 - (generate_segment_levels (max (max start_v stop_v) 0) 0
                (-|step_v|) (epsilonOf step_v)).getLastD 0|
              = |(generate_segment_levels (max (max start_v stop_v) 0) 0
                (-|step_v|) (epsilonOf step_v)).getLastD 0| := by
                rw [zero_sub, abs_neg]
            _ ≤ |step_v| := le_trans hx2 hεs.le
        exact hchain1.append
          (hchain2.append (hchain3.append hchain4 hbound34) hbound23) hbound12
      · intro seg hseg
        simp only [List.mem_cons, List.not_mem_nil, or_false] at hseg
        rcases hseg with rfl | rfl | rfl | rfl
        · exact hlast1
        · exact hlast2
        · exact hlast3
        · exact hlast4
    · -- only the positive pair of segments
      refine ⟨[⟨0, max (max start_v stop_v) 0, |step_v|⟩,
          ⟨max (max start_v stop_v) 0, 0, -|step_v|⟩],
        generate_segment_levels 0 (max (max start_v stop_v) 0) |step_v|
            (epsilonOf step_v) ++
          generate_segment_levels (max (max start_v stop_v) 0) 0 (-|step_v|)
            (epsilonOf step_v), ?_, ?_, ?_, ?_, ?_, ?_⟩
      · simp only [build_segments, hstepguard, Bool.false_eq_true, if_false]
        rw [if_pos hpos, if_neg hneg]
        rw [appendSegment_not_close _ _ _ _ _ _ hcp1, if_pos hp0]
        rw [appendSegment_not_close _ _ _ _ _ _ hcp2,
          if_neg (not_le.mpr hppos)]
        dsimp only
        rw [show (([] : List Segment) ++
            [(⟨0, max (max start_v stop_v) 0, |step_v|⟩ : Segment)] ++
            [(⟨max (max start_v stop_v) 0, 0, -|step_v|⟩ : Segment)]).isEmpty =
            false by simp]
        simp only [Bool.false_eq_true, if_false]
        rw [show (([] : List ℚ) ++
            generate_segment_levels 0 (max (max start_v stop_v) 0) |step_v|
              (epsilonOf step_v) ++
            generate_segment_levels (max (max start_v stop_v) 0) 0 (-|step_v|)
              (epsilonOf step_v)).isEmpty = false by
          rw [List.isEmpty_eq_false]
          intro hnil
          rcases List.append_eq_nil.mp hnil with ⟨-, h4⟩
          simp [generate_segment_levels] at h4]
        simp only [Bool.false_eq_true, if_false]
        simp [List.append_assoc]
      · intro h
        exact hne1 (List.append_eq_nil.mp h).1
      · rw [head?_append_left _ _ hne1, hhead1]
        intro x hx
        rw [Option.mem_def, Option.some_inj] at hx
        subst hx
        simpa using hε0.le
      · rw [getLast?_append_right _ _ hne2, getLast?_eq_getLastD _ hne2]
        intro x hx
        rw [Option.mem_def, Option.some_inj] at hx
        subst hx
        exact iscloseQ_zero_abs _ _ hε0.le hlast2
      · exact hchain1.append hchain2 hbound12
      · intro seg hseg
        simp only [List.mem_cons, List.not_mem_nil, or_false] at hseg
        rcases hseg with rfl | rfl
        · exact hlast1
        · exact hlast2
  · by_cases hneg : min (min start_v stop_v) 0 < -epsilonOf step_v
    · -- only the negative pair of segments
      have hnneg : min (min start_v stop_v) 0 < 0 := by linarith
      have hnabs : |min (min start_v stop_v) 0| ≤ 10^7 * |step_v| + |step_v| := by
        linarith
      obtain ⟨hne3, hhead3, hchain3, hmem3, hlast3⟩ :=
        generate_down_spec 0 (min (min start_v stop_v) 0) |step_v| (epsilonOf step_v)
          (10^7 * |step_v| + |step_v|) hsm hε0 hεs hrel hnB (by positivity) hnneg
      obtain ⟨hne4, hhead4, hchain4, hmem4, hlast4⟩ :=
        generate_pos_spec (min (min start_v stop_v) 0) 0 |step_v| (epsilonOf step_v)
          (10^7 * |step_v| + |step_v|) hsm hε0 hεs hrel (by rw [abs_zero]; linarith)
          (abs_le.mp (by linarith)).1 hnneg
      obtain ⟨hcn1, hcn2⟩ := not_close_zero_target (min (min start_v stop_v) 0)
        (epsilonOf step_v) hε0
        (by rw [abs_of_nonpos hn0]; linarith)
      have hbound34 : ∀ x ∈ (generate_segment_levels 0
          (min (min start_v stop_v) 0) (-|step_v|)
          (epsilonOf step_v)).getLast?,
          ∀ y ∈ (generate_segment_levels (min (min start_v stop_v) 0) 0
            |step_v| (epsilonOf step_v)).head?, |y - x| ≤ |step_v| := by
        rw [getLast?_eq_getLastD _ hne3, hhead4]
        intro x hx y hy
        rw [Option.mem_def, Option.some_inj] at hx hy
        subst hx
        subst hy
        exact close_gap _ _ (epsilonOf step_v) (10^7 * |step_v| + |step_v|) _
          (hmem3 _ (getLastD_mem _ hne3 0)) hnabs hεs hrel hlast3
      refine ⟨[⟨0, min (min start_v stop_v) 0, -|step_v|⟩,
          ⟨min (min start_v stop_v) 0, 0, |step_v|⟩],
        generate_segment_levels 0 (min (min start_v stop_v) 0) (-|step_v|)
            (epsilonOf step_v) ++
          generate_segment_levels (min (min start_v stop_v) 0) 0 |step_v|
            (epsilonOf step_v), ?_, ?_, ?_, ?_, ?_, ?_⟩
      · simp only [build_segments, hstepguard, Bool.false_eq_true, if_false]
        rw [if_neg hpos, if_pos hneg]
        rw [appendSegment_not_close _ _ _ _ _ _ hcn1,
          if_neg (not_le.mpr hnneg)]
        rw [appendSegment_not_close _ _ _ _ _ _ hcn2, if_pos hn0]
        dsimp only
        rw [show (([] : List Segment) ++
            [(⟨0, min (min start_v stop_v) 0, -|step_v|⟩ : Segment)] ++
            [(⟨min (min start_v stop_v) 0, 0, |step_v|⟩ : Segment)]).isEmpty =
            false by simp]
        simp only [Bool.false_eq_true, if_false]
        rw [show (([] : List ℚ) ++
            generate_segment_levels 0 (min (min start_v stop_v) 0) (-|step_v|)
              (epsilonOf step_v) ++
            generate_segment_levels (min (min start_v stop_v) 0) 0 |step_v|
              (epsilonOf step_v)).isEmpty = false by
          rw [List.isEmpty_eq_false]
          intro hnil
          rcases List.append_eq_nil.mp hnil with ⟨-, h4⟩
          simp [generate_segment_levels] at h4]
        simp only [Bool.false_eq_true, if_false]
        simp [List.append_assoc]
      · intro h
        exact hne3 (List.append_eq_nil.mp h).1
      · rw [head?_append_left _ _ hne3, hhead3]
        intro x hx
        rw [Option.mem_def, Option.some_inj] at hx
        subst hx
        simpa using hε0.le
      · rw [getLast?_append_right _ _ hne4, getLast?_eq_getLastD _ hne4]
        intro x hx
        rw [Option.mem_def, Option.some_inj] at hx
        subst hx
        exact iscloseQ_zero_abs _ _ hε0.le hlast4
      · exact hchain3.append hchain4 hbound34
      · intro seg hseg
        simp only [List.mem_cons, List.not_mem_nil, or_false] at hseg
        rcases hseg with rfl | rfl
        · exact hlast3
        · exact hlast4
    · -- fallback: one direct segment between two levels within epsilon of 0
      push_neg at hpos hneg
      have hstartabs : |start_v| ≤ epsilonOf step_v := by
        refine abs_le.mpr ⟨?_, ?_⟩
        · calc -epsilonOf step_v ≤ min (min start_v stop_v) 0 := hneg
            _ ≤ start_v := le_trans (min_le_left _ _) (min_le_left _ _)
        · calc start_v ≤ max (max start_v stop_v) 0 :=
              le_trans (le_max_left _ _) (le_max_left _ _)
            _ ≤ epsilonOf step_v := hpos
      have hstopabs : |stop_v| ≤ epsilonOf step_v := by
        refine abs_le.mpr ⟨?_, ?_⟩
        · calc -epsilonOf step_v ≤ min (min start_v stop_v) 0 := hneg
            _ ≤ stop_v := le_trans (min_le_left _ _) (min_le_right _ _)
        · calc stop_v ≤ max (max start_v stop_v) 0 :=
              le_trans (le_max_right _ _) (le_max_left _ _)
            _ ≤ epsilonOf step_v := hpos
      have hcases : (generate_segment_levels start_v stop_v step_v
            (epsilonOf step_v) = [start_v] ∧
          iscloseQ start_v stop_v (1/10^9) (epsilonOf step_v) = true) ∨
          generate_segment_levels start_v stop_v step_v (epsilonOf step_v) =
            [start_v, stop_v] := by
        rcases (abs_pos.mp hsm).lt_or_lt with hvneg | hvpos
        · have htr : generate_segment_levels start_v stop_v step_v
              (epsilonOf step_v) =
              (generate_segment_levels (-start_v) (-stop_v) (-step_v)
                (epsilonOf step_v)).map (fun x => -x) := by
            have h := generate_neg (-start_v) (-stop_v) (-step_v)
              (epsilonOf step_v) (by linarith)
            simpa using h
          have habsneg : |step_v| = -step_v := abs_of_neg hvneg
          rcases generate_fallback_pos (-start_v) (-stop_v) (-step_v)
              (epsilonOf step_v) (by linarith) hε0 (by rw [habsneg] at h3ε; exact h3ε)
              (by simpa using hstartabs) (by simpa using hstopabs) with
            ⟨h1, h2⟩ | h1
          · left
            constructor
            · rw [htr, h1]
              simp
            · rw [← iscloseQ_neg start_v stop_v]
              exact h2
          · right
            rw [htr, h1]
            simp
        · have habs : |step_v| = step_v := abs_of_pos hvpos
          rcases generate_fallback_pos start_v stop_v step_v (epsilonOf step_v)
              hvpos hε0 (by rw [habs] at h3ε; exact h3ε) hstartabs hstopabs with
            h | h
          · left
            exact h
          · right
            exact h
      have hne : generate_segment_levels start_v stop_v step_v
          (epsilonOf step_v) ≠ [] := by
        unfold generate_segment_levels
        exact List.cons_ne_nil _ _
      refine ⟨[⟨start_v, stop_v, step_v⟩],
        generate_segment_levels start_v stop_v step_v (epsilonOf step_v),
        ?_, hne, ?_, ?_, ?_, ?_⟩
      · simp only [build_segments, hstepguard, Bool.false_eq_true, if_false]
        rw [if_neg (not_lt.mpr hpos), if_neg (not_lt.mpr hneg)]
        dsimp only
        rw [if_pos (show (([] : List Segment)).isEmpty = true by simp)]
        dsimp only
        have hpe : (generate_segment_levels start_v stop_v step_v
            (epsilonOf step_v)).isEmpty = false := by
          rw [List.isEmpty_eq_false]
          exact hne
        rw [hpe]
        simp only [Bool.false_eq_true, if_false]
      · rcases hcases with ⟨h1, -⟩ | h1 <;> rw [h1]
        · intro x hx
          simp only [List.head?_cons, Option.mem_def, Option.some_inj] at hx
          subst hx
          exact hstartabs
        · intro x hx
          simp only [List.head?_cons, Option.mem_def, Option.some_inj] at hx
          subst hx
          exact hstartabs
      · rcases hcases with ⟨h1, -⟩ | h1 <;> rw [h1]
        · intro x hx
          simp at hx
          subst hx
          exact hstartabs
        · intro x hx
          simp at hx
          subst hx
          exact hstopabs
      · rcases hcases with ⟨h1, -⟩ | h1 <;> rw [h1]
        · exact List.chain'_singleton _
        · rw [List.chain'_pair]
          calc |stop_v - start_v| ≤ |stop_v| + |start_v| := abs_sub _ _
            _ ≤ |step_v| := by linarith [h3ε]
      · intro seg hseg
        simp only [List.mem_cons, List.not_mem_nil, or_false] at hseg
        subst hseg
        dsimp only
        rcases hcases with ⟨h1, h2⟩ | h1
        · rw [h1]
          simpa using h2
        · rw [h1]
          simp only [List.getLastD_cons, List.getLastD_nil]
          exact iscloseQ_self _ _ _ (by norm_num)

/-- Witness for C5: the amended round-trip theorem applied at the concrete
parameters start -4, stop 4, step 0.1, with both hypotheses discharged
numerically. -/
theorem C5_planner_round_trip_witness :
    ∃ segs path, build_segments (-4) 4 (1/10) = Except.ok (segs, path) ∧
      path ≠ [] ∧
      (∀ x ∈ path.head?, |x| ≤ epsilonOf (1/10)) ∧
      (∀ x ∈ path.getLast?, |x| ≤ epsilonOf (1/10)) ∧
      path.Chain' (fun a b => |b - a| ≤ |(1/10 : ℚ)|) ∧
      ∀ seg ∈ segs,
        iscloseQ ((generate_segment_levels seg.startLevel seg.stopLevel
          seg.stepSigned (epsilonOf (1/10))).getLastD 0) seg.stopLevel
          (1/10^9) (epsilonOf (1/10)) = true :=
  C5_planner_round_trip (-4) 4 (1/10) (by norm_num [abs_eq_max_neg])
    (by norm_num [abs_eq_max_neg])

/-- C5 (counterexample to the original claim).  With start 0, stop 2e9 and
step 1 (both endpoints exactly reachable from 0 in whole steps), the
planner's second segment is 2e9 -> 0 with step -1, but its ladder is just
[2e9]: the very first decrement 2e9 - 1 is within math.isclose of the
current level 2e9 (the relative term 1e-9 * 2e9 = 2 exceeds the step), so
the loop breaks immediately.  The concatenated path therefore ends at 2e9,
not within epsilon of 0, and the ladder's last level is not the segment's
stop: the final step is not clamped onto stop. -/
theorem C5_counterexample :
    build_segments 0 (2*10^9) 1 =
      Except.ok ([⟨0, 2*10^9, 1⟩, ⟨2*10^9, 0, -1⟩],
        generate_segment_levels 0 (2*10^9) 1 (epsilonOf 1) ++
          generate_segment_levels (2*10^9) 0 (-1) (epsilonOf 1)) ∧
    generate_segment_levels (2*10^9) 0 (-1) (epsilonOf 1) = [2*10^9] ∧
    (generate_segment_levels 0 (2*10^9) 1 (epsilonOf 1) ++
        generate_segment_levels (2*10^9) 0 (-1) (epsilonOf 1)).getLast? =
      some (2*10^9 : ℚ) ∧
    ¬(|(2*10^9 : ℚ) - 0| ≤ epsilonOf 1) ∧
    (generate_segment_levels (2*10^9) 0 (-1) (epsilonOf 1)).getLastD 0 ≠ 0 := by
  have hεval : epsilonOf 1 = 1001/10^12 := by
    norm_num [epsilonOf, abs_eq_max_neg]
  have hguard : iscloseQ (-1 : ℚ) 0 (1/10^9) (epsilonOf 1) = false := by
    rw [iscloseQ, decide_eq_false_iff_not, hεval]
    norm_num [abs_eq_max_neg]
  have hnext : nextLevel 0 (-1) (epsilonOf 1) (2*10^9) = (2*10^9 - 1 : ℚ) := by
    unfold nextLevel
    split_ifs with hA hB
    · exact absurd hA.1 (by norm_num)
    · rw [hεval] at hB
      exact absurd hB.2 (by norm_num)
    · norm_num
  have hbreak : iscloseQ (2*10^9 - 1 : ℚ) (2*10^9) (1/10^9) (epsilonOf 1) = true := by
    rw [iscloseQ, decide_eq_true_eq, hεval]
    norm_num [abs_eq_max_neg]
  have hL2 : generate_segment_levels (2*10^9) 0 (-1) (epsilonOf 1) = [2*10^9] := by
    unfold generate_segment_levels
    rw [hguard]
    simp only [Bool.false_eq_true, if_false]
    obtain ⟨f, hf⟩ : ∃ f, fuelFor (2*10^9) 0 (-1) = f + 1 :=
      ⟨fuelFor (2*10^9) 0 (-1) - 1, by unfold fuelFor; omega⟩
    rw [hf]
    simp only [genLoopF, hnext, hbreak, if_true]
  refine ⟨?_, hL2, ?_, ?_, ?_⟩
  · have hstep : iscloseQ |(1 : ℚ)| 0 (1/10^9) (1/10^15) = false := by
      rw [iscloseQ, decide_eq_false_iff_not]
      norm_num [abs_eq_max_neg]
    have hc1 : iscloseQ 0 (2*10^9) (1/10^9) (epsilonOf 1) = false := by
      rw [iscloseQ, decide_eq_false_iff_not, hεval]
      norm_num [abs_eq_max_neg]
    have hc2 : iscloseQ (2*10^9) 0 (1/10^9) (epsilonOf 1) = false := by
      rw [iscloseQ, decide_eq_false_iff_not, hεval]
      norm_num [abs_eq_max_neg]
    simp only [build_segments, hstep, Bool.false_eq_true, if_false]
    rw [show max (max (0 : ℚ) (2*10^9)) 0 = 2*10^9 by norm_num,
      show min (min (0 : ℚ) (2*10^9)) 0 = 0 by norm_num,
      show |(1 : ℚ)| = 1 by norm_num [abs_eq_max_neg]]
    rw [if_pos (show epsilonOf 1 < (2*10^9 : ℚ) by rw [hεval]; norm_num),
      if_neg (show ¬((0 : ℚ) < -epsilonOf 1) by rw [hεval]; norm_num)]
    rw [appendSegment_not_close _ _ _ _ _ _ hc1,
      if_pos (show (0 : ℚ) ≤ 2*10^9 by norm_num)]
    rw [appendSegment_not_close _ _ _ _ _ _ hc2,
      if_neg (show ¬(2*10^9 : ℚ) ≤ 0 by norm_num)]
    dsimp only
    have hsne : (([] : List Segment) ++ [(⟨0, 2*10^9, 1⟩ : Segment)] ++
        [(⟨2*10^9, 0, -1⟩ : Segment)]).isEmpty = false := by
      simp
    rw [hsne]
    simp only [Bool.false_eq_true, if_false]
    have hpne : (([] : List ℚ) ++
        generate_segment_levels 0 (2*10^9) 1 (epsilonOf 1) ++
        generate_segment_levels (2*10^9) 0 (-1) (epsilonOf 1)).isEmpty = false := by
      rw [List.isEmpty_eq_false]
      intro hnil
      rcases List.append_eq_nil.mp hnil with ⟨-, h4⟩
      simp [generate_segment_levels] at h4
    rw [hpne]
    simp only [Bool.false_eq_true, if_false]
    simp [List.append_assoc]
  · rw [getLast?_append_right _ _ (by rw [hL2]; simp), hL2]
    simp
  · rw [hεval]
    norm_num [abs_eq_max_neg]
  · rw [hL2]
    simp only [List.getLastD_cons, List.getLastD_nil]
    norm_num

/-- C2 (amended).  In the drain loop, while cancellation is not requested
and only non-marker data lines have been seen, a VisaIOError - whether or
not it is a timeout - aborts the segment with the RuntimeError failure
result instead of continuing the loop; in particular a timeout is never
treated as segment completion. -/
theorem C2_timeout_aborts (marker : String) (cb : String → Except String Unit)
    (lines : List String) (pre rest : List (Bool × ReadEvent)) (t : Bool)
    (hpre : ∀ p ∈ pre, p.1 = false ∧ ∃ s, p.2 = ReadEvent.line s ∧ s ≠ marker) :
    read_until_marker marker cb lines
        (pre ++ (false, ReadEvent.visaError t) :: rest) =
      DrainResult.readFailed t ∧
    ∀ ls, DrainResult.readFailed t ≠ DrainResult.ok ls := by
  refine ⟨?_, fun ls h => DrainResult.noConfusion h⟩
  revert hpre
  induction pre generalizing lines with
  | nil =>
    intro hpre
    simp [read_until_marker]
  | cons p pre ih =>
    intro hpre
    obtain ⟨b, ev⟩ := p
    obtain ⟨hb, s, hev, hsm⟩ := hpre (b, ev) (List.mem_cons_self _ _)
    dsimp only at hb hev
    subst hb
    subst hev
    rw [List.cons_append]
    simp only [read_until_marker, Bool.false_eq_true, if_false]
    rw [if_neg hsm]
    by_cases hs : s = ""
    · rw [if_pos hs]
      exact ih lines (fun q hq => hpre q (List.mem_cons_of_mem _ hq))
    · rw [if_neg hs]
      cases cb s <;>
        exact ih (lines ++ [s]) (fun q hq => hpre q (List.mem_cons_of_mem _ hq))

/-- Witness for C2: the amended theorem applied to a trace with one data
line before the timeout. -/
theorem C2_witness :
    read_until_marker "SWEEP_DONE_1_1" (fun _ => Except.ok ()) []
        ([(false, ReadEvent.line "D")] ++
          (false, ReadEvent.visaError true) :: [(false, ReadEvent.line "X")]) =
      DrainResult.readFailed true ∧
    ∀ ls, DrainResult.readFailed true ≠ DrainResult.ok ls :=
  C2_timeout_aborts "SWEEP_DONE_1_1" (fun _ => Except.ok ()) []
    [(false, ReadEvent.line "D")] [(false, ReadEvent.line "X")] true
    (by
      intro p hp
      rw [List.mem_singleton] at hp
      subst hp
      exact ⟨rfl, "D", rfl, by decide⟩)

/-- C2 (counterexample to the original claim).  With cancellation never
requested and the marker not yet seen, a timeout VisaIOError makes the
drain loop abort with the RuntimeError failure result rather than
continuing with another read: continuing on the remaining trace would
have reached the marker and completed with the data line "D". -/
theorem C2_counterexample :
    read_until_marker "SWEEP_DONE_1_1" (fun _ => Except.ok ()) []
        [(false, ReadEvent.visaError true), (false, ReadEvent.line "D"),
          (false, ReadEvent.line "SWEEP_DONE_1_1")] =
      DrainResult.readFailed true ∧
    read_until_marker "SWEEP_DONE_1_1" (fun _ => Except.ok ()) []
        [(false, ReadEvent.line "D"),
          (false, ReadEvent.line "SWEEP_DONE_1_1")] =
      DrainResult.ok ["D"] ∧
    DrainResult.readFailed true ≠ DrainResult.ok ["D"] := by
  refine ⟨rfl, ?_, by simp⟩
  rfl

/-- C10.  The drain loop swallows callback exceptions: the drain result
never depends on whether the per-line callback succeeds or raises, and on
a non-marker, non-empty data line the loop continues on the rest of the
trace with the raw line appended to the accumulated printed lines,
exactly as if the callback had succeeded. -/
theorem C10_callback_exceptions_swallowed (marker : String)
    (f g : String → Except String Unit) (lines : List String)
    (events : List (Bool × ReadEvent)) :
    read_until_marker marker f lines events =
      read_until_marker marker g lines events ∧
    ∀ s rest, s ≠ marker → s ≠ "" →
      read_until_marker marker f lines ((false, ReadEvent.line s) :: rest) =
        read_until_marker marker f (lines ++ [s]) rest := by
  constructor
  · induction events generalizing lines with
    | nil => rfl
    | cons p rest ih =>
      obtain ⟨b, ev⟩ := p
      cases b with
      | true => rfl
      | false =>
        cases ev with
        | visaError t => rfl
        | line s =>
          simp only [read_until_marker, Bool.false_eq_true, if_false]
          by_cases hsm : s = marker
          · rw [if_pos hsm, if_pos hsm]
          · rw [if_neg hsm, if_neg hsm]
            by_cases hs : s = ""
            · rw [if_pos hs, if_pos hs]
              exact ih lines
            · rw [if_neg hs, if_neg hs]
              cases f s <;> cases g s <;> exact ih (lines ++ [s])
  · intro s rest hsm hs
    simp only [read_until_marker, Bool.false_eq_true, if_false]
    rw [if_neg hsm, if_neg hs]
    cases f s <;> rfl

/-- Witness for C10: a callback that always raises produces the same
result as one that always succeeds, and the raising callback's line is
still appended before the loop continues. -/
theorem C10_witness :
    read_until_marker "M" (fun _ => Except.error "boom") []
        [(false, ReadEvent.line "D"), (false, ReadEvent.line "M")] =
      read_until_marker "M" (fun _ => Except.ok ()) []
        [(false, ReadEvent.line "D"), (false, ReadEvent.line "M")] ∧
    read_until_marker "M" (fun _ => Except.error "boom") []
        [(false, ReadEvent.line "D"), (false, ReadEvent.line "M")] =
      read_until_marker "M" (fun _ => Except.error "boom") ["D"]
        [(false, ReadEvent.line "M")] := by
  have h := C10_callback_exceptions_swallowed "M"
    (fun _ => Except.error "boom") (fun _ => Except.ok ()) []
    [(false, ReadEvent.line "D"), (false, ReadEvent.line "M")]
  exact ⟨h.1, h.2 "D" [(false, ReadEvent.line "M")] (by decide) (by decide)⟩

/-- C3 (amended).  In the actual handoff the channel handle is reassigned
FIRST and the listener is locked only afterwards: on the accepted-trigger
path the operations are focus (0), attach (1), lock (2), start (3), so
the lock is established before start_sweep but only after the physical
reassignment.  When a sweep is already running or the instrument is
disconnected the trigger is rejected with a dialog and no handoff
operation happens. -/
theorem C3_attach_then_lock (started : Bool) :
    (handle_trigger_ops false true started)[1]? =
      some TriggerOp.attachSharedInstrument ∧
    (handle_trigger_ops false true started)[2]? =
      some (TriggerOp.setLock true) ∧
    (handle_trigger_ops false true started)[3]? = some TriggerOp.startSweep ∧
    (handoffStates false true started)[2]? =
      some ⟨false, true⟩ ∧
    handle_trigger_ops true true started = [TriggerOp.showInfoAlreadyRunning] ∧
    handle_trigger_ops false false started =
      [TriggerOp.showWarningDisconnected] := by
  cases started <;> exact ⟨rfl, rfl, rfl, rfl, rfl, rfl⟩

/-- C3 (counterexample to the original claim).  On the successful handoff
path the operation order is focus, attach, lock, start: the handle is
reassigned before the listener is notified it is locked, and the
intermediate state right after attach has sweepOwnsHandle true while
listenerLocked is still false - exactly the window the claim says is
avoided. -/
theorem C3_counterexample :
    handle_trigger_ops false true true =
      [TriggerOp.focusIVTab, TriggerOp.attachSharedInstrument,
        TriggerOp.setLock true, TriggerOp.startSweep] ∧
    handoffStates false true true =
      [⟨false, false⟩, ⟨false, false⟩, ⟨false, true⟩, ⟨true, true⟩,
        ⟨true, true⟩] ∧
    (⟨false, true⟩ : HandoffState) ∈ handoffStates false true true ∧
    (⟨false, true⟩ : HandoffState).sweepOwnsHandle = true ∧
    (⟨false, true⟩ : HandoffState).listenerLocked = false := by
  refine ⟨rfl, rfl, ?_, rfl, rfl⟩
  rw [show handoffStates false true true =
    [⟨false, false⟩, ⟨false, false⟩, ⟨false, true⟩, ⟨true, true⟩,
      ⟨true, true⟩] from rfl]
  simp

/-- Shape of the worker's segment-issuing loop starting at index k: the
issued indices are k, k+1, ... (a contiguous block), and the loop either
runs to completion with no error, or stops at the first failing segment
with its message, all earlier segments having succeeded. -/
theorem workerExec_shape (outcomes : ℕ → SegOutcome) :
    ∀ n k, ∃ m, m ≤ n ∧
      (workerExec outcomes k n).1 = List.range' k m ∧
      (((workerExec outcomes k n).2 = none ∧ m = n) ∨
        (∃ msg, (workerExec outcomes k n).2 = some msg ∧ 0 < m ∧
          outcomes (k + m - 1) = SegOutcome.fail msg ∧
          ∀ j, j < m - 1 → outcomes (k + j) = SegOutcome.ok)) := by
  intro n
  induction n with
  | zero =>
    intro k
    exact ⟨0, Nat.le_refl 0, rfl, Or.inl ⟨rfl, rfl⟩⟩
  | succ n ih =>
    intro k
    cases hk : outcomes k with
    | fail msg =>
      refine ⟨1, by omega, ?_, Or.inr ⟨msg, ?_, by omega, ?_, ?_⟩⟩
      · simp [workerExec, hk]
      · simp [workerExec, hk]
      · simpa using hk
      · intro j hj
        exact absurd hj (Nat.not_lt_zero j)
    | ok =>
      obtain ⟨m, hm, h1, h2⟩ := ih (k + 1)
      refine ⟨m + 1, by omega, ?_, ?_⟩
      · simp only [workerExec, hk]
        rw [h1, List.range'_succ]
      · rcases h2 with ⟨he, hmn⟩ | ⟨msg, he, hpos, hfail, hall⟩
        · refine Or.inl ⟨?_, by omega⟩
          simp only [workerExec, hk]
          exact he
        · refine Or.inr ⟨msg, ?_, by omega, ?_, ?_⟩
          · simp only [workerExec, hk]
            exact he
          · have heq : k + (m + 1) - 1 = k + 1 + m - 1 := by omega
            rw [heq]
            exact hfail
          · intro j hj
            cases j with
            | zero => simpa using hk
            | succ i =>
              have hgoal := hall i (by omega)
              have heq : k + 1 + i = k + (i + 1) := by omega
              rw [heq] at hgoal
              exact hgoal

/-- C6 (amended).  On any segment failure the worker stops issuing further
segments: the issued segments are always a prefix of the lexicographic
run/segment plan, complete exactly when no error occurred, and otherwise
ending at the first failing segment.  The failure handler _on_sweep_failed
then clears run_results, current_data, corrected_voltages and output_lines
- discarding, not finalizing, the partial results - and performs no channel
write at all (in particular no output-off command). -/
theorem C6_failure_stops_and_clears (outcomes : ℕ → SegOutcome) (n : ℕ)
    (s : AppState) :
    (∃ m, m ≤ n ∧ (workerExec outcomes 0 n).1 = List.range m ∧
      (((workerExec outcomes 0 n).2 = none ∧ m = n) ∨
        (∃ msg, (workerExec outcomes 0 n).2 = some msg ∧ 0 < m ∧
          outcomes (m - 1) = SegOutcome.fail msg ∧
          ∀ j, j < m - 1 → outcomes j = SegOutcome.ok))) ∧
    (on_sweep_failed s).runResults = [] ∧
    (on_sweep_failed s).currentData = [] ∧
    (on_sweep_failed s).correctedVoltages = [] ∧
    (on_sweep_failed s).outputLines = [] ∧
    (on_sweep_failed s).channelWrites = s.channelWrites := by
  refine ⟨?_, rfl, rfl, rfl, rfl, rfl⟩
  obtain ⟨m, hm, h1, h2⟩ := workerExec_shape outcomes n 0
  refine ⟨m, hm, ?_, ?_⟩
  · rw [h1, List.range_eq_range']
  · rcases h2 with ⟨he, hmn⟩ | ⟨msg, he, hpos, hfail, hall⟩
    · exact Or.inl ⟨he, hmn⟩
    · refine Or.inr ⟨msg, he, hpos, ?_, ?_⟩
      · simpa using hfail
      · intro j hj
        simpa using hall j hj

/-- Witness for C6: the amended theorem applied to a four-segment plan
whose second segment fails with an I/O error, and a concrete GUI state. -/
theorem C6_witness :
    (∃ m, m ≤ 4 ∧
      (workerExec (fun k => if k = 1 then SegOutcome.fail "io" else
        SegOutcome.ok) 0 4).1 = List.range m ∧
      (((workerExec (fun k => if k = 1 then SegOutcome.fail "io" else
          SegOutcome.ok) 0 4).2 = none ∧ m = 4) ∨
        (∃ msg, (workerExec (fun k => if k = 1 then SegOutcome.fail "io" else
          SegOutcome.ok) 0 4).2 = some msg ∧ 0 < m ∧
          (if m - 1 = 1 then SegOutcome.fail "io" else SegOutcome.ok) =
            SegOutcome.fail msg ∧
          ∀ j, j < m - 1 → (if j = 1 then SegOutcome.fail "io" else
            SegOutcome.ok) = SegOutcome.ok))) ∧
    (on_sweep_failed ⟨[[1]], [2], [3], ["line"], ["w"]⟩).runResults = [] ∧
    (on_sweep_failed ⟨[[1]], [2], [3], ["line"], ["w"]⟩).currentData = [] ∧
    (on_sweep_failed ⟨[[1]], [2], [3], ["line"], ["w"]⟩).correctedVoltages = [] ∧
    (on_sweep_failed ⟨[[1]], [2], [3], ["line"], ["w"]⟩).outputLines = [] ∧
    (on_sweep_failed ⟨[[1]], [2], [3], ["line"], ["w"]⟩).channelWrites =
      (⟨[[1]], [2], [3], ["line"], ["w"]⟩ : AppState).channelWrites :=
  C6_failure_stops_and_clears
    (fun k => if k = 1 then SegOutcome.fail "io" else SegOutcome.ok) 4
    ⟨[[1]], [2], [3], ["line"], ["w"]⟩

/-- C6 (counterexample to the original claim).  On a failing trace the
worker does stop after the failing segment, but _on_sweep_failed then
empties run_results even though partial results exist - they are
discarded, not finalized as partial results - and the failure path writes
nothing to the channel, so no attempt is made to command the output to a
safe/off state. -/
theorem C6_counterexample :
    workerExec (fun k => if k = 1 then SegOutcome.fail "io" else SegOutcome.ok)
        0 4 = ([0, 1], some "io") ∧
    (on_sweep_failed ⟨[[1]], [2], [3], ["line"], ["w"]⟩).runResults = [] ∧
    ([[1]] : List (List ℚ)) ≠ [] ∧
    (on_sweep_failed ⟨[[1]], [2], [3], ["line"], ["w"]⟩).channelWrites =
      ["w"] := by
  refine ⟨rfl, rfl, by simp, rfl⟩

/-- C7.  While the listener is locked, each of the guarded operations
start_wait, setup_trigger and disconnect only appends the specific
"Instrument Busy" dialog: the session operations and the lock flag are
untouched, and the result does not depend on the superclass operation at
all - the rejected request is dropped, never queued. -/
theorem C7_busy_rejection (s : ListenerState) (h : s.locked = true)
    (f g : ListenerState → ListenerState) :
    start_wait f s = { s with infoDialogs := s.infoDialogs ++
        [busyMsg "start a new wait"] } ∧
    setup_trigger f s = { s with infoDialogs := s.infoDialogs ++
        [busyMsg "configure the trigger"] } ∧
    disconnect f s = { s with infoDialogs := s.infoDialogs ++
        [busyMsg "disconnect"] } ∧
    (start_wait f s).sessionOps = s.sessionOps ∧
    (setup_trigger f s).sessionOps = s.sessionOps ∧
    (disconnect f s).sessionOps = s.sessionOps ∧
    (start_wait f s).locked = true ∧
    start_wait f s = start_wait g s ∧
    setup_trigger f s = setup_trigger g s ∧
    disconnect f s = disconnect g s := by
  refine ⟨?_, ?_, ?_, ?_, ?_, ?_, ?_, ?_, ?_, ?_⟩ <;>
    simp [start_wait, setup_trigger, disconnect, guardedOp, guard_if_locked, h]

/-- Witness for C7: a locked listener with a session-touching superclass
operation; the guarded calls only show the busy dialog, leave the session
operations empty, and agree with the same calls under the identity
superclass operation. -/
theorem C7_witness :
    start_wait (fun st => { st with sessionOps := st.sessionOps ++ ["arm"] })
        ⟨true, [], []⟩ =
      ⟨true, [busyMsg "start a new wait"], []⟩ ∧
    (disconnect id ⟨true, [], []⟩).sessionOps = [] ∧
    start_wait (fun st => { st with sessionOps := st.sessionOps ++ ["arm"] })
        ⟨true, [], []⟩ = start_wait id ⟨true, [], []⟩ := by
  have h := C7_busy_rejection ⟨true, [], []⟩ rfl
    (fun st => { st with sessionOps := st.sessionOps ++ ["arm"] }) id
  exact ⟨h.1, h.2.2.2.2.2.1, h.2.2.2.2.2.2.2.1⟩

/-- C8.  A zero step magnitude is a hard input error: parameter collection
fails with the ValueError message, start_sweep shows it as an error dialog,
spawns no worker thread and performs no channel I/O before rejecting, the
planner rejects the parameters with the same error, and level-ladder
generation returns immediately with the single-element ladder [start]
because the isclose guard on the step fires, so it never loops. -/
theorem C8_zero_step_fail_fast (connected : Bool)
    (start_v stop_v ilimit nplc settle : ℚ) (runs : Option ℤ) (ε : ℚ) :
    collect_parameters start_v stop_v 0 ilimit nplc settle runs =
      Except.error "Step voltage must not be zero." ∧
    start_sweep_model true start_v stop_v 0 ilimit nplc settle runs =
      ⟨some "Step voltage must not be zero.", false, []⟩ ∧
    (start_sweep_model connected start_v stop_v 0 ilimit nplc settle
        runs).workerSpawned = false ∧
    (start_sweep_model connected start_v stop_v 0 ilimit nplc settle
        runs).channelWrites = [] ∧
    build_segments start_v stop_v 0 =
      Except.error "Step voltage must not be zero." ∧
    generate_segment_levels start_v stop_v 0 ε = [start_v] := by
  have hg : iscloseQ (0 : ℚ) 0 ((10 : ℚ)^9)⁻¹ ((10 : ℚ)^15)⁻¹ = true :=
    iscloseQ_self 0 _ _ (by norm_num)
  have hg2 : iscloseQ (0 : ℚ) 0 ((10 : ℚ)^9)⁻¹ ε = true :=
    iscloseQ_self 0 _ _ (by norm_num)
  refine ⟨by simp [collect_parameters],
    by simp [start_sweep_model, collect_parameters], ?_, ?_,
    by simp [build_segments, hg], by simp [generate_segment_levels, hg2]⟩
  · cases connected <;> simp [start_sweep_model, collect_parameters]
  · cases connected <;> simp [start_sweep_model, collect_parameters]

theorem map_congr_mem {α β : Type} (l : List α) (f g : α → β)
    (h : ∀ a ∈ l, f a = g a) : l.map f = l.map g := by
  induction l with
  | nil => rfl
  | cons a l ih =>
    simp only [List.map_cons]
    rw [h a (List.mem_cons_self _ _),
      ih (fun b hb => h b (List.mem_cons_of_mem _ hb))]

theorem deepcopy_fresh (h : Heap) (e : EntryRef) :
    (deepcopyEntry h e).1.fresh = h.fresh + 4 := rfl

/-- Deep-copying allocates only fresh cells: numeric cells below the fresh
mark are untouched. -/
theorem deepcopy_num_below (h : Heap) (e : EntryRef) (a : ℕ)
    (ha : a < h.fresh) :
    (deepcopyEntry h e).1.numCells a = h.numCells a := by
  simp only [deepcopyEntry]
  rw [if_neg (by omega), if_neg (by omega), if_neg (by omega)]

theorem deepcopy_str_below (h : Heap) (e : EntryRef) (a : ℕ)
    (ha : a < h.fresh) :
    (deepcopyEntry h e).1.strCells a = h.strCells a := by
  simp only [deepcopyEntry]
  rw [if_neg (by omega)]

/-- Reading the copy through the post-copy heap gives exactly the
original entry's observable value. -/
theorem deepcopy_read (h : Heap) (e : EntryRef) :
    readEntry (deepcopyEntry h e).1 (deepcopyEntry h e).2 = readEntry h e := by
  simp [deepcopyEntry, readEntry,
    show h.fresh + 1 ≠ h.fresh from by omega,
    show h.fresh + 2 ≠ h.fresh from by omega,
    show h.fresh + 2 ≠ h.fresh + 1 from by omega,
    show h.fresh + 3 ≠ h.fresh from by omega]

theorem deepcopy_read_below (h : Heap) (e e' : EntryRef)
    (he : entryAddrsBelow e' h.fresh) :
    readEntry (deepcopyEntry h e).1 e' = readEntry h e' := by
  obtain ⟨h1, h2, h3, h4⟩ := he
  unfold readEntry
  rw [deepcopy_num_below h e _ h1, deepcopy_num_below h e _ h2,
    deepcopy_num_below h e _ h3, deepcopy_str_below h e _ h4]

theorem snapshot_num_below (es : List EntryRef) :
    ∀ (h : Heap) (a : ℕ), a < h.fresh →
      (snapshot_entries h es).1.numCells a = h.numCells a := by
  induction es with
  | nil =>
    intro h a _
    rfl
  | cons e es ih =>
    intro h a ha
    simp only [snapshot_entries]
    rw [ih (deepcopyEntry h e).1 a
      (by have hf : (deepcopyEntry h e).1.fresh = h.fresh + 4 := rfl; omega)]
    exact deepcopy_num_below h e a ha

theorem snapshot_str_below (es : List EntryRef) :
    ∀ (h : Heap) (a : ℕ), a < h.fresh →
      (snapshot_entries h es).1.strCells a = h.strCells a := by
  induction es with
  | nil =>
    intro h a _
    rfl
  | cons e es ih =>
    intro h a ha
    simp only [snapshot_entries]
    rw [ih (deepcopyEntry h e).1 a
      (by have hf : (deepcopyEntry h e).1.fresh = h.fresh + 4 := rfl; omega)]
    exact deepcopy_str_below h e a ha

theorem snapshot_read_below (es : List EntryRef) (h : Heap) (e : EntryRef)
    (he : entryAddrsBelow e h.fresh) :
    readEntry (snapshot_entries h es).1 e = readEntry h e := by
  obtain ⟨h1, h2, h3, h4⟩ := he
  unfold readEntry
  rw [snapshot_num_below es h _ h1, snapshot_num_below es h _ h2,
    snapshot_num_below es h _ h3, snapshot_str_below es h _ h4]

/-- At the handoff point the snapshot reads exactly as the live entries. -/
theorem snapshot_reads (es : List EntryRef) :
    ∀ h : Heap, (∀ e ∈ es, entryAddrsBelow e h.fresh) →
      ((snapshot_entries h es).2).map (readEntry (snapshot_entries h es).1) =
        es.map (readEntry h) := by
  induction es with
  | nil =>
    intro h _
    rfl
  | cons e es ih =>
    intro h hwf
    simp only [snapshot_entries, List.map_cons]
    have hb : entryAddrsBelow (deepcopyEntry h e).2 (deepcopyEntry h e).1.fresh := by
      unfold entryAddrsBelow deepcopyEntry
      dsimp only
      omega
    have hhead : readEntry (snapshot_entries (deepcopyEntry h e).1 es).1
        (deepcopyEntry h e).2 = readEntry h e := by
      rw [snapshot_read_below es (deepcopyEntry h e).1 _ hb]
      exact deepcopy_read h e
    have htail : (snapshot_entries (deepcopyEntry h e).1 es).2.map
        (readEntry (snapshot_entries (deepcopyEntry h e).1 es).1) =
        es.map (readEntry (deepcopyEntry h e).1) := by
      refine ih (deepcopyEntry h e).1 ?_
      intro e' he'
      obtain ⟨h1, h2, h3, h4⟩ := hwf e' (List.mem_cons_of_mem _ he')
      have hf : (deepcopyEntry h e).1.fresh = h.fresh + 4 := rfl
      unfold entryAddrsBelow
      exact ⟨by omega, by omega, by omega, by omega⟩
    have htail2 : es.map (readEntry (deepcopyEntry h e).1) =
        es.map (readEntry h) := by
      refine map_congr_mem es _ _ ?_
      intro e' he'
      exact deepcopy_read_below h e e' (hwf e' (List.mem_cons_of_mem _ he'))
    rw [hhead, htail, htail2]

/-- Every entry of the snapshot lives entirely in the region allocated at
or above the pre-snapshot fresh mark. -/
theorem snapshot_addrs_ge (es : List EntryRef) :
    ∀ h : Heap, ∀ e' ∈ (snapshot_entries h es).2, entryAddrsGE e' h.fresh := by
  induction es with
  | nil =>
    intro h e' he'
    simp [snapshot_entries] at he'
  | cons e es ih =>
    intro h e' he'
    simp only [snapshot_entries, List.mem_cons] at he'
    rcases he' with rfl | he'
    · unfold entryAddrsGE deepcopyEntry
      dsimp only
      omega
    · have hg := ih (deepcopyEntry h e).1 e' he'
      have hf : (deepcopyEntry h e).1.fresh = h.fresh + 4 := rfl
      obtain ⟨g1, g2, g3, g4⟩ := hg
      unfold entryAddrsGE
      exact ⟨by omega, by omega, by omega, by omega⟩

theorem applyWrite_num_ne (h : Heap) (w : HeapWrite) (a : ℕ)
    (hw : writeAddr w ≠ a) : (applyWrite h w).numCells a = h.numCells a := by
  cases w with
  | setNum b v =>
    have hab : ¬(a = b) := fun hab => hw hab.symm
    simp [applyWrite, hab]
  | setStr b v => rfl

theorem applyWrite_str_ne (h : Heap) (w : HeapWrite) (a : ℕ)
    (hw : writeAddr w ≠ a) : (applyWrite h w).strCells a = h.strCells a := by
  cases w with
  | setNum b v => rfl
  | setStr b v =>
    have hab : ¬(a = b) := fun hab => hw hab.symm
    simp [applyWrite, hab]

theorem applyWrites_num_ne (ws : List HeapWrite) :
    ∀ (h : Heap) (a : ℕ), (∀ w ∈ ws, writeAddr w ≠ a) →
      (applyWrites h ws).numCells a = h.numCells a := by
  induction ws with
  | nil =>
    intro h a _
    rfl
  | cons w ws ih =>
    intro h a hne
    have hstep : applyWrites h (w :: ws) = applyWrites (applyWrite h w) ws := rfl
    rw [hstep, ih (applyWrite h w) a (fun u hu => hne u (List.mem_cons_of_mem _ hu)),
      applyWrite_num_ne h w a (hne w (List.mem_cons_self _ _))]

theorem applyWrites_str_ne (ws : List HeapWrite) :
    ∀ (h : Heap) (a : ℕ), (∀ w ∈ ws, writeAddr w ≠ a) →
      (applyWrites h ws).strCells a = h.strCells a := by
  induction ws with
  | nil =>
    intro h a _
    rfl
  | cons w ws ih =>
    intro h a hne
    have hstep : applyWrites h (w :: ws) = applyWrites (applyWrite h w) ws := rfl
    rw [hstep, ih (applyWrite h w) a (fun u hu => hne u (List.mem_cons_of_mem _ hu)),
      applyWrite_str_ne h w a (hne w (List.mem_cons_self _ _))]

/-- Writes below an entry's address region leave its observable value
unchanged. -/
theorem applyWrites_readEntry (h : Heap) (ws : List HeapWrite) (e : EntryRef)
    (n : ℕ) (hge : entryAddrsGE e n) (hws : ∀ w ∈ ws, writeAddr w < n) :
    readEntry (applyWrites h ws) e = readEntry h e := by
  obtain ⟨g1, g2, g3, g4⟩ := hge
  unfold readEntry
  rw [applyWrites_num_ne ws h _ (fun w hw => by have := hws w hw; omega),
    applyWrites_num_ne ws h _ (fun w hw => by have := hws w hw; omega),
    applyWrites_num_ne ws h _ (fun w hw => by have := hws w hw; omega),
    applyWrites_str_ne ws h _ (fun w hw => by have := hws w hw; omega)]

/-- C9.  _snapshot_entries hands over a deep copy: for a well-formed heap
(every live entry's list cells allocated), the snapshot's observable
values at the handoff point equal the live entries' values, and any
subsequent worker mutations of the live cells - including the nested
lists, which all live at pre-snapshot addresses - leave every already
dispatched snapshot's observable values unchanged. -/
theorem C9_snapshot_deep_copy (h : Heap) (entries : List EntryRef)
    (hwf : ∀ e ∈ entries, entryAddrsBelow e h.fresh) :
    ((snapshot_entries h entries).2).map
        (readEntry (snapshot_entries h entries).1) =
      entries.map (readEntry h) ∧
    ∀ ws : List HeapWrite, (∀ w ∈ ws, writeAddr w < h.fresh) →
      ((snapshot_entries h entries).2).map
          (readEntry (applyWrites (snapshot_entries h entries).1 ws)) =
        ((snapshot_entries h entries).2).map
          (readEntry (snapshot_entries h entries).1) := by
  refine ⟨snapshot_reads entries h hwf, ?_⟩
  intro ws hws
  refine map_congr_mem _ _ _ ?_
  intro e' he'
  exact applyWrites_readEntry _ ws e' h.fresh
    (snapshot_addrs_ge entries h e' he') hws

/-- Witness for C9: a one-entry heap; the snapshot agrees with the live
entry at handoff and is unchanged by a subsequent overwrite of the live
numeric cell. -/
theorem C9_witness :
    (∀ e ∈ [exampleEntry], entryAddrsBelow e exampleHeap.fresh) ∧
    ((snapshot_entries exampleHeap [exampleEntry]).2).map
        (readEntry (snapshot_entries exampleHeap [exampleEntry]).1) =
      [exampleEntry].map (readEntry exampleHeap) ∧
    ((snapshot_entries exampleHeap [exampleEntry]).2).map
        (readEntry (applyWrites (snapshot_entries exampleHeap [exampleEntry]).1
          [HeapWrite.setNum 0 [9]])) =
      ((snapshot_entries exampleHeap [exampleEntry]).2).map
        (readEntry (snapshot_entries exampleHeap [exampleEntry]).1) := by
  have hwf : ∀ e ∈ [exampleEntry], entryAddrsBelow e exampleHeap.fresh := by
    intro e he
    rw [List.mem_singleton] at he
    subst he
    unfold entryAddrsBelow exampleEntry exampleHeap
    dsimp only
    omega
  refine ⟨hwf, (C9_snapshot_deep_copy exampleHeap [exampleEntry] hwf).1,
    (C9_snapshot_deep_copy exampleHeap [exampleEntry] hwf).2
      [HeapWrite.setNum 0 [9]] ?_⟩
  intro w hw
  rw [List.mem_singleton] at hw
  subst hw
  norm_num [writeAddr, exampleHeap]

end Sweep
